import Mathlib

/-!
Verification development for the frpy reactive event-propagation engine.

The Python source (src/frpy/core.py, unary.py, timely.py) is shallowly embedded
here.  Event payloads are modelled as `Int`, the Python `None` sentinel as
`Option.none`.  Listener closures are defunctionalised into the `Listener`
inductive, whose constructors correspond one-to-one to the closures the source
creates (`_once(update)` wrappers from `Stream.__call__`, `combine`'s `notify`,
`next_tick`'s conditional one-shot, `timely.delay`'s `on_t`/`on_s`).  The
clock's listener list doubles as the deferred dispatch queue exactly as in the
source; dispatch re-reads the list at every index so that entries appended
mid-pass are picked up, like Python's `for f in self.listeners` over a list
that grows.  A raising combining function is modelled by `Except.error`, and
runaway recursion is cut by a fuel parameter (`Outcome.nofuel`).
-/

namespace Frpy

abbrev CellId := Nat

/-- Observable events: a value assignment to a cell (the moment the optional
trace hook fires in `update`), the invocation of listener `i` of cell `c`
during a dispatch pass, and the firing of a scheduled `next_tick` function. -/
inductive Ev where
| setv (c : CellId) (v : Int)
| invoke (c : CellId) (i : Nat)
| fired (mark : Int)
deriving DecidableEq, Repr

/-- Result of running the interpreter: normal return, a Python exception
propagating out, or fuel exhaustion (used only to bound recursion). -/
inductive Outcome where
| ok
| raised
| nofuel
deriving DecidableEq, Repr

/-- Type of a combining function handed to `combine`: it receives the current
values of the dependency cells, the current value of the output cell, the
combinator's private mutable buffer and the triggering payload; it returns
either a raised exception or an optional value to push, together with the new
buffer contents. -/
abbrev CombFn :=
  List (Option Int) → Option Int → Option Int → Int →
    (Except Unit (Option Int)) × Option Int

/-- Defunctionalised listener closures, one constructor per closure shape the
source creates:
* `user f tgt` — a plain listener `lambda _, x: tgt(f(x))` as attached by the
  doctests/tests via `listeners.append`;
* `onceUpdate c v stale` — the `_once(update)` wrapper `Stream.__call__`
  appends to the clock's list for a deferred write of `v` into `c`;
* `notify fn deps out buf` — `combine`'s `notify`, with the combinator's
  closure buffer stored alongside;
* `onceCond now mark stale` — `next_tick`'s
  `_once(lambda *_: fn(), lambda _, value: value > now)`;
* `onceSchedNext clk mark stale` — a once-wrapped user callback that performs
  `next_tick(clk, fn)` when invoked (the `next_tick` doctest's `callback`);
* `delayTick t res bufId` / `delaySrc clk bufId` — `timely.delay`'s `on_t`
  and `on_s`, sharing buffer number `bufId`. -/
inductive Listener where
| user (f : Int → Int) (tgt : CellId)
| onceUpdate (c : CellId) (v : Int) (stale : Bool)
| notify (fn : CombFn) (deps : List CellId) (out : CellId) (buf : Option Int)
| onceCond (now : Option Int) (mark : Int) (stale : Bool)
| onceSchedNext (clk : CellId) (mark : Int) (stale : Bool)
| delayTick (t : Int) (res : CellId) (bufId : Nat)
| delaySrc (clk : CellId) (bufId : Nat)

instance : Inhabited Listener := ⟨.user (fun x => x) 0⟩

/-- Stale flag of a listener; plain listeners have no `stale` attribute, so
`getattr(f, 'stale', False)` yields `false` for them. -/
def isStaleL : Listener → Bool
| .onceUpdate _ _ s => s
| .onceCond _ _ s => s
| .onceSchedNext _ _ s => s
| _ => false

/-- Mark a one-shot listener stale (`g.stale = True` after its body ran). -/
def setStaleL : Listener → Listener
| .onceUpdate c v _ => .onceUpdate c v true
| .onceCond n m _ => .onceCond n m true
| .onceSchedNext c m _ => .onceSchedNext c m true
| l => l

/-- Replace the closure buffer of a `notify` listener (the combining function
mutated its captured buffer). -/
def setBufL (nb : Option Int) : Listener → Listener
| .notify fn d o _ => .notify fn d o nb
| l => l

/-- Function-free summary of a listener, used for decidable statements about
listener lists. -/
inductive LTag where
| user (tgt : CellId)
| onceUpdate (c : CellId) (v : Int) (stale : Bool)
| notify (deps : List CellId) (out : CellId) (buf : Option Int)
| onceCond (now : Option Int) (mark : Int) (stale : Bool)
| onceSchedNext (clk : CellId) (mark : Int) (stale : Bool)
| delayTick (t : Int) (res : CellId) (bufId : Nat)
| delaySrc (clk : CellId) (bufId : Nat)
deriving DecidableEq, Repr

def ltag : Listener → LTag
| .user _ t => .user t
| .onceUpdate c v s => .onceUpdate c v s
| .notify _ d o b => .notify d o b
| .onceCond n m s => .onceCond n m s
| .onceSchedNext c m s => .onceSchedNext c m s
| .delayTick t r b => .delayTick t r b
| .delaySrc c b => .delaySrc c b

/-- An event cell: current value (`None` as `none`), listener list and the
owning clock reference (`self.clock = clock or self` makes this total). -/
structure Cell where
  value : Option Int
  listeners : List Listener
  clock : CellId

/-- Whole program state: the cells (index = `CellId`), the shared mutable
buffers of `timely.delay` instances, and the observable event log. -/
structure State where
  cells : List Cell
  dbufs : List (List (Option Int × Int))
  log : List Ev

def emptyState : State := ⟨[], [], []⟩

/-- Read a cell; a missing index yields an inert self-clocked default (never
reached in the scenarios below). -/
def getCell (st : State) (c : CellId) : Cell := st.cells.getD c ⟨none, [], c⟩

def setCell (st : State) (c : CellId) (cell : Cell) : State :=
  { st with cells := st.cells.set c cell }

/-- Mutate one cell in place with a field update. -/
def modCell (st : State) (c : CellId) (f : Cell → Cell) : State :=
  setCell st c (f (getCell st c))

def setValue (st : State) (c : CellId) (v : Int) : State :=
  modCell st c (fun cl => { cl with value := some v })

def pushLog (st : State) (e : Ev) : State := { st with log := st.log ++ [e] }

/-- In-place update of a list element, used for stale marking and buffer
mutation of listener entries. -/
def listUpd : List α → Nat → (α → α) → List α
| [], _, _ => []
| a :: l, 0, f => f a :: l
| a :: l, n+1, f => a :: listUpd l n f

def appendL (st : State) (c : CellId) (l : Listener) : State :=
  modCell st c (fun cl => { cl with listeners := cl.listeners ++ [l] })

/-- Prune: `self.listeners = [f for f in self.listeners if not f.stale]`. -/
def pruneCell (st : State) (c : CellId) : State :=
  modCell st c (fun cl => { cl with listeners := cl.listeners.filter (fun l => !isStaleL l) })

def markStale (st : State) (c : CellId) (i : Nat) : State :=
  modCell st c (fun cl => { cl with listeners := listUpd cl.listeners i setStaleL })

def setBuf (st : State) (c : CellId) (i : Nat) (nb : Option Int) : State :=
  modCell st c (fun cl => { cl with listeners := listUpd cl.listeners i (setBufL nb) })

def pushDbuf (st : State) (bufId : Nat) (p : Option Int × Int) : State :=
  { st with dbufs := listUpd st.dbufs bufId (fun l => l ++ [p]) }

def removeDbuf (st : State) (bufId : Nat) (p : Option Int × Int) : State :=
  { st with dbufs := listUpd st.dbufs bufId (fun l => l.erase p) }

/-- Interpreter tasks: the write path of `Stream.__call__`, the `update`
closure, the dispatch loop `for f in self.listeners` (re-reading the list at
each index), the invocation of one listener, and the body of `delay.on_t`
iterating over a snapshot `list(buffer)`. -/
inductive Task where
| call (c : CellId) (v : Option Int)
| update (c : CellId) (v : Int)
| dispatch (c : CellId) (v : Int) (i : Nat)
| runL (host : CellId) (i : Nat) (v : Int)
| delayIter (t : Int) (res : CellId) (bufId : Nat) (now : Int)
    (items : List (Option Int × Int))

/-- Small-step interpreter for the embedded source, structurally recursive on
fuel.  Each branch transcribes the corresponding Python code path. -/
def step : Nat → State → Task → State × Outcome
| 0, st, _ => (st, .nofuel)
| n+1, st, .call c vo =>
  match vo with
  | none => (st, .ok)
  | some v =>
    if (getCell st c).clock = c then step n st (.update c v)
    else (appendL st (getCell st c).clock (.onceUpdate c v false), .ok)
| n+1, st, .update c v =>
  step n (pruneCell (setValue (pushLog st (.setv c v)) c v) c) (.dispatch c v 0)
| n+1, st, .dispatch c v i =>
  if i < (getCell st c).listeners.length then
    match step n st (.runL c i v) with
    | (st', .ok) => step n st' (.dispatch c v (i+1))
    | r => r
  else (st, .ok)
| n+1, st, .runL host i v =>
  match (getCell st host).listeners.getD i default with
  | .user f tgt =>
    step n (pushLog st (.invoke host i)) (.call tgt (some (f v)))
  | .onceUpdate c' v' _ =>
    match step n (pushLog st (.invoke host i)) (.update c' v') with
    | (st', .ok) => (markStale st' host i, .ok)
    | r => r
  | .notify fn deps out buf =>
    let st1 := pushLog st (.invoke host i)
    let dvs := deps.map (fun d => (getCell st1 d).value)
    let tv := (getCell st1 out).value
    let pr := fn dvs tv buf v
    let st2 := setBuf st1 host i pr.2
    match pr.1 with
    | .error _ => (st2, .raised)
    | .ok rv => step n st2 (.call out rv)
  | .onceCond nowo mark _ =>
    let st1 := pushLog st (.invoke host i)
    match nowo with
    | none => (st1, .raised)
    | some nw =>
      if nw < v then (markStale (pushLog st1 (.fired mark)) host i, .ok)
      else (st1, .ok)
  | .onceSchedNext clk mark _ =>
    let st1 := pushLog st (.invoke host i)
    let st2 := appendL st1 clk (.onceCond (getCell st1 clk).value mark false)
    (markStale st2 host i, .ok)
  | .delaySrc clk bufId =>
    let st1 := pushLog st (.invoke host i)
    (pushDbuf st1 bufId ((getCell st1 clk).value, v), .ok)
  | .delayTick t res bufId =>
    let st1 := pushLog st (.invoke host i)
    step n st1 (.delayIter t res bufId v (st1.dbufs.getD bufId []))
| n+1, st, .delayIter t res bufId now items =>
  match items with
  | [] => (st, .ok)
  | (vt, x) :: rest =>
    match vt with
    | none => (st, .raised)
    | some et =>
      if t ≤ now - et then
        match step n st (.call res (some et)) with
        | (st', .ok) =>
          step n (removeDbuf st' bufId (some et, x)) (.delayIter t res bufId now rest)
        | r => r
      else step n st (.delayIter t res bufId now rest)

/-- Public entry point `Stream.__call__`: a call with `None` is a read of the
current value; a call with a payload runs the write path and returns `None`. -/
def callStream (fuel : Nat) (st : State) (c : CellId) (vo : Option Int) :
    (State × Outcome) × Option Int :=
  match vo with
  | none => ((st, .ok), (getCell st c).value)
  | some v => (step fuel st (.call c (some v)), none)

/-- `Stream.__init__`: fresh cell with `value = None`, empty listener list and
`self.clock = clock or self`. -/
def newStream (st : State) (clockOpt : Option CellId) : State × CellId :=
  (⟨st.cells ++ [⟨none, [], clockOpt.getD st.cells.length⟩], st.dbufs, st.log⟩,
   st.cells.length)

/-- Body of `combine`'s per-dependency loop: replay `notify(dep, dep())` when
the dependency already holds a value, then `dep.listeners.append(notify)`.
The combinator's shared closure buffer is threaded through. -/
def combineLoop (fn : CombFn) (allDeps : List CellId) (out : CellId)
    (fuel : Nat) : State → Option Int → List CellId → State × Outcome
| st, _, [] => (st, .ok)
| st, buf, d :: rest =>
  match (getCell st d).value with
  | some dv =>
    let dvs := allDeps.map (fun x => (getCell st x).value)
    let tv := (getCell st out).value
    let pr := fn dvs tv buf dv
    match pr.1 with
    | .error _ => (st, .raised)
    | .ok rv =>
      match step fuel st (.call out rv) with
      | (st', .ok) =>
        combineLoop fn allDeps out fuel
          (appendL st' d (.notify fn allDeps out pr.2)) pr.2 rest
      | r' => r'
  | none =>
    combineLoop fn allDeps out fuel
      (appendL st d (.notify fn allDeps out buf)) buf rest

/-- `combine(fn, deps)`: create `s = Stream(deps[0].clock)`, then replay and
attach `notify` on every dependency.  Returns the new cell's id. -/
def combineOp (fuel : Nat) (st : State) (fn : CombFn) (buf0 : Option Int)
    (deps : List CellId) : (State × Outcome) × CellId :=
  let r := newStream st (some (getCell st (deps.headD 0)).clock)
  (combineLoop fn deps r.2 fuel r.1 buf0 deps, r.2)

/-- Combining function of `unary.fmap`: `return fn(value)` — always emits. -/
def fmapFn (f : Int → Int) : CombFn := fun _ _ buf v => (.ok (some (f v)), buf)

/-- `unary.fmap fn s = combine(g, [s])`. -/
def fmapOp (fuel : Nat) (st : State) (f : Int → Int) (s : CellId) :
    (State × Outcome) × CellId :=
  combineOp fuel st (fmapFn f) none [s]

/-- Combining function of `unary.changed`: carries `last` in the buffer; emits
`current` iff `last is None or not eq_fn(last, current)`; always overwrites
the buffer with the received event. -/
def changedFn (eq : Int → Int → Bool) : CombFn := fun _ _ buf v =>
  (.ok (match buf with
        | none => some v
        | some last => if eq last v then none else some v), some v)

/-- `unary.changed eq_fn s = combine(g, [s])` with a fresh `[None]` buffer. -/
def changedOp (fuel : Nat) (st : State) (eq : Int → Int → Bool) (s : CellId) :
    (State × Outcome) × CellId :=
  combineOp fuel st (changedFn eq) none [s]

/-- `timely.delay(t, s)`: fresh buffer, `res = Stream(s.clock)`,
`s.clock.listeners.append(on_t)`, `s.listeners.append(on_s)`. -/
def delayOp (st : State) (t : Int) (s : CellId) : State × CellId :=
  let bufId := st.dbufs.length
  let st1 : State := ⟨st.cells, st.dbufs ++ [[]], st.log⟩
  let clk := (getCell st1 s).clock
  let r := newStream st1 (some clk)
  (appendL (appendL r.1 clk (.delayTick t r.2 bufId)) s (.delaySrc clk bufId), r.2)

/-- `next_tick(clock, fn)`: capture `now = clock()` and append
`_once(lambda *_: fn(), lambda _, value: value > now)`. -/
def nextTickOp (st : State) (clk : CellId) (mark : Int) : State :=
  appendL st clk (.onceCond (getCell st clk).value mark false)

/-- Feed a sequence of external writes into one cell, aborting on a raised
exception or fuel exhaustion, with fresh fuel per call. -/
def feedTicks (fuel : Nat) (c : CellId) : State → List Int → State × Outcome
| st, [] => (st, .ok)
| st, v :: vs =>
  match step fuel st (.call c (some v)) with
  | (st', .ok) => feedTicks fuel c st' vs
  | r => r

/-- Emissions of cell `c` visible in a log (the values its trace hook sees). -/
def emitsOf (c : CellId) (log : List Ev) : List Int :=
  log.filterMap (fun e =>
    match e with
    | .setv c' v => if c' = c then some v else none
    | _ => none)

/-- Combining function of the repository test `sum_upstreams`: sum of the
dependency values that are present. -/
def sumFn : CombFn := fun dvs _ buf _ =>
  (.ok (some ((dvs.filterMap id).foldl (· + ·) 0)), buf)

/-- A combining function that raises on its first invocation (mutating its
buffer first, as a Python closure would) and behaves like identity after. -/
def raiseOnce : CombFn := fun _ _ buf v =>
  match buf with
  | none => (.error (), some 0)
  | some _ => (.ok (some v), buf)

/-! Scenario for C1: a root clock (cell 0) with one listener pushing `f0 v`
into the distance-1 cell 1; cell 1 carries an arbitrary list of listeners
`ls`, each pushing into one of the distance-2 leaf cells `2 .. N+1`. -/

def c1State (f0 : Int → Int) (ls : List ((Int → Int) × CellId)) (N : Nat) : State :=
  ⟨⟨none, [.user f0 1], 0⟩ ::
   ⟨none, ls.map (fun p => .user p.1 p.2), 0⟩ ::
   List.replicate N ⟨none, [], 0⟩, [], []⟩

/-- One full pass of the C1 scenario: a single external write of `v` into the
root clock. -/
def c1Run (v : Int) (f0 : Int → Int) (ls : List ((Int → Int) × CellId)) (N : Nat) :
    State × Outcome :=
  step (ls.length + 12) (c1State f0 ls N) (.call 0 (some v))

/-- Listener-invocation events `invoke c i, invoke c (i+1), ...` (`n` many). -/
def invokesFrom (c : CellId) : Nat → Nat → List Ev
| _, 0 => []
| i, n+1 => .invoke c i :: invokesFrom c (i+1) n

/-- One-shot update entries the distance-1 cell's listeners enqueue. -/
def oncesOf (v : Int) (ps : List ((Int → Int) × CellId)) : List Listener :=
  ps.map (fun p => .onceUpdate p.2 (p.1 v) false)

def bulkAppend0 (st : State) (ls : List Listener) : State :=
  ls.foldl (fun s l => appendL s 0 l) st

def pushLogs (st : State) (es : List Ev) : State := es.foldl pushLog st

/-- Canonical state transformation of the queue-draining phase that processes
the enqueued one-shot updates of leaf cells, mirroring the interpreter. -/
def c1PhaseB : State → Nat → List (CellId × Int) → State
| st, _, [] => st
| st, i, q :: qs =>
  c1PhaseB
    (markStale
      (pruneCell (setValue (pushLog (pushLog st (.invoke 0 i)) (.setv q.1 q.2)) q.1 q.2) q.1)
      0 i)
    (i+1) qs

/-- Log of the queue-draining phase. -/
def phaseBLog : Nat → List (CellId × Int) → List Ev
| _, [] => []
| i, q :: qs => .invoke 0 i :: .setv q.1 q.2 :: phaseBLog (i+1) qs


/-- Intermediate states of the C1 pass, named for readability: after the root
update's bookkeeping, after enqueuing the distance-1 update, after the
distance-1 cell's own update bookkeeping, after its listeners enqueued the
distance-2 updates, and after the distance-1 one-shot was marked stale. -/
def c1A (v : Int) (f0 : Int → Int) (ls : List ((Int → Int) × CellId)) (N : Nat) : State :=
  pruneCell (setValue (pushLog (c1State f0 ls N) (.setv 0 v)) 0 v) 0

def c1B (v : Int) (f0 : Int → Int) (ls : List ((Int → Int) × CellId)) (N : Nat) : State :=
  appendL (pushLog (c1A v f0 ls N) (.invoke 0 0)) 0 (.onceUpdate 1 (f0 v) false)

def c1C0 (v : Int) (f0 : Int → Int) (ls : List ((Int → Int) × CellId)) (N : Nat) : State :=
  pruneCell (setValue (pushLog (pushLog (c1B v f0 ls N) (.invoke 0 1))
    (.setv 1 (f0 v))) 1 (f0 v)) 1

def c1C1 (v : Int) (f0 : Int → Int) (ls : List ((Int → Int) × CellId)) (N : Nat) : State :=
  bulkAppend0 (pushLogs (c1C0 v f0 ls N) (invokesFrom 1 0 ls.length)) (oncesOf (f0 v) ls)

def c1D (v : Int) (f0 : Int → Int) (ls : List ((Int → Int) × CellId)) (N : Nat) : State :=
  markStale (c1C1 v f0 ls N) 0 1

/-- Queue items of the C1 pass: one deferred one-shot per distance-1 listener. -/
def c1Qs (v : Int) (f0 : Int → Int) (ls : List ((Int → Int) × CellId)) : List (CellId × Int) :=
  ls.map (fun p => (p.2, p.1 (f0 v)))

/-- First half of the C1 pass log: the root update, its listener, the enqueued
distance-1 update running, and then all of the distance-1 cell's listeners. -/
def c1LogPre (v : Int) (f0 : Int → Int) (k : Nat) : List Ev :=
  [.setv 0 v, .invoke 0 0, .invoke 0 1, .setv 1 (f0 v)] ++ invokesFrom 1 0 k


/-- Concrete instances for the C1 witness: the doctest configuration. -/
def c1WitF : Int → Int := fun x => x

def c1WitLs : List ((Int → Int) × CellId) := [(fun x => x + 10, 2), (fun x => x, 3)]

/-! Scenario for C2: a diamond.  Orphan source cell 0; `a = fmap id src`
(cell 1), `b = fmap id src` (cell 2), `m = combine sumFn [a, b]` (cell 3). -/

def c2Src : State × CellId := newStream emptyState none
def c2A : (State × Outcome) × CellId := fmapOp 20 c2Src.1 (fun x => x) 0
def c2B : (State × Outcome) × CellId := fmapOp 20 c2A.1.1 (fun x => x) 0
def c2M : (State × Outcome) × CellId := combineOp 20 c2B.1.1 sumFn none [1, 2]
def c2Run : State × Outcome := step 20 c2M.1.1 (.call 0 (some 1))

/-- True of the one-shot update entries for cell `c` in a listener list. -/
def isOnceFor (c : CellId) (t : LTag) : Bool :=
  match t with
  | .onceUpdate c' _ _ => c' = c
  | _ => false

/-! Scenario for C3: two distinct root clocks 0 and 1; dependency cells 2
(clocked by 0) and 3 (clocked by 1); output 4 of `combine` over `[2, 3]`. -/

def c3s0 : State × CellId := newStream emptyState none
def c3s1 : State × CellId := newStream c3s0.1 none
def c3d1 : State × CellId := newStream c3s1.1 (some 0)
def c3d2 : State × CellId := newStream c3d1.1 (some 1)
def c3Out : (State × Outcome) × CellId := combineOp 20 c3d2.1 sumFn none [2, 3]

/-! Scenario for C4: orphan source cell 0 already holding `1`, then
`out = fmap (fun x => x + 3) src` (cell 1). -/

def c4Src : State × CellId := newStream emptyState none
def c4Fed : State × Outcome := step 10 c4Src.1 (.call 0 (some 1))
def c4Out : (State × Outcome) × CellId := fmapOp 20 c4Fed.1 (fun x => x + 3) 0
def c4Next : State × Outcome := step 30 c4Out.1.1 (.call 0 (some 2))

/-! Scenario for C5: root clock 0 with two plain listeners forwarding the tick
value into cells 1 and 2; `out = combine raiseOnce [cell 1]` is cell 3. -/

def c5State (fa fb : Int → Int) : State :=
  let s0 := newStream emptyState none
  let s1 := newStream s0.1 (some 0)
  let s2 := newStream s1.1 (some 0)
  let s3 := appendL (appendL s2.1 0 (.user fa 1)) 0 (.user fb 2)
  (combineOp 20 s3 raiseOnce none [1]).1.1

def c5Tick1 (fa fb : Int → Int) (v1 : Int) : State × Outcome :=
  step 30 (c5State fa fb) (.call 0 (some v1))

def c5Tick2 (fa fb : Int → Int) (v1 v2 : Int) : State × Outcome :=
  step 30 (c5Tick1 fa fb v1).1 (.call 0 (some v2))

/-! Scenario for C6: root clock 0 whose only listener is a once-wrapped
callback performing `next_tick(clk, fn)` when the first tick arrives. -/

def c6State : State := appendL (newStream emptyState none).1 0 (.onceSchedNext 0 7 false)

def c6Pass0 (t0 : Int) : State × Outcome := step 10 c6State (.call 0 (some t0))

def c6Rest (t0 : Int) (vs : List Int) : State × Outcome :=
  feedTicks 10 0 (c6Pass0 t0).1 vs

/-- Log the remaining ticks must produce according to the claim: each tick
logs its own update and the pending conditional one-shot's invocation; the
first tick strictly greater than the captured timestamp also fires the
scheduled function, after which the one-shot is gone for good. -/
def c6SpecLog (t0 : Int) : List Int → List Ev
| [] => []
| v :: vs =>
  if t0 < v then [.setv 0 v, .invoke 0 0, .fired 7] ++ vs.map (fun u => Ev.setv 0 u)
  else [.setv 0 v, .invoke 0 0] ++ c6SpecLog t0 vs

/-! Scenario for C7: root clock 0, source cell 1 clocked by it,
`res = timely.delay(2, src)` is cell 2.  Feed `clk(0)`, `src(5)`, then
`clk(1)`, `clk(2)`, `clk(3)`. -/

def c7Clk : State × CellId := newStream emptyState none
def c7SrcCell : State × CellId := newStream c7Clk.1 (some 0)
def c7Del : State × CellId := delayOp c7SrcCell.1 2 1
def c7Run1 : State × Outcome := feedTicks 20 0 c7Del.1 [0]
def c7Push : State × Outcome := step 20 c7Run1.1 (.call 1 (some 5))
def c7Run2 : State × Outcome := feedTicks 20 0 c7Push.1 [1, 2, 3]

/-! Scenario for C8: orphan source cell 0, `out = unary.changed(eq, src)` is
cell 1. -/

def c8State (eq : Int → Int → Bool) : State :=
  (changedOp 20 (newStream emptyState none).1 eq 0).1.1

def c8Run (eq : Int → Int → Bool) (es : List Int) : State × Outcome :=
  feedTicks 20 0 (c8State eq) es

/-- Modelled from the spec: the distinct-until-changed emission sequence.
The output "emits `current` iff `equal(last, current)` is false; first event
always emitted", where `last` is the last received event. -/
def distinctSpec (eq : Int → Int → Bool) : Option Int → List Int → List Int
| _, [] => []
| last, e :: es =>
  (match last with
   | none => [e]
   | some l => if eq l e then [] else [e]) ++ distinctSpec eq (some e) es

/-- Equality function of the claim's concrete example: `eq(x, y) = (y - x <= 1)`. -/
def nearEq (x y : Int) : Bool := y - x ≤ 1

/-! Helper lemmas about the state primitives. -/

theorem c5State_eq (fa fb : Int → Int) :
    c5State fa fb =
      ⟨[⟨none, [.user fa 1, .user fb 2], 0⟩,
        ⟨none, [.notify raiseOnce [1] 3 none], 0⟩,
        ⟨none, [], 0⟩,
        ⟨none, [], 0⟩], [], []⟩ := rfl

@[simp] theorem isStaleL_user (f : Int → Int) (t : CellId) :
    isStaleL (.user f t) = false := rfl

@[simp] theorem isStaleL_onceUpdate (c : CellId) (v : Int) (s : Bool) :
    isStaleL (.onceUpdate c v s) = s := rfl

@[simp] theorem isStaleL_notify (fn : CombFn) (d : List CellId) (o : CellId) (b : Option Int) :
    isStaleL (.notify fn d o b) = false := rfl

@[simp] theorem isStaleL_onceCond (n : Option Int) (m : Int) (s : Bool) :
    isStaleL (.onceCond n m s) = s := rfl

@[simp] theorem isStaleL_onceSchedNext (c : CellId) (m : Int) (s : Bool) :
    isStaleL (.onceSchedNext c m s) = s := rfl

@[simp] theorem isStaleL_delayTick (t : Int) (r : CellId) (b : Nat) :
    isStaleL (.delayTick t r b) = false := rfl

@[simp] theorem isStaleL_delaySrc (c : CellId) (b : Nat) :
    isStaleL (.delaySrc c b) = false := rfl

@[simp] theorem setStaleL_onceUpdate (c : CellId) (v : Int) (s : Bool) :
    setStaleL (.onceUpdate c v s) = .onceUpdate c v true := rfl

@[simp] theorem setStaleL_onceCond (n : Option Int) (m : Int) (s : Bool) :
    setStaleL (.onceCond n m s) = .onceCond n m true := rfl

@[simp] theorem setStaleL_onceSchedNext (c : CellId) (m : Int) (s : Bool) :
    setStaleL (.onceSchedNext c m s) = .onceSchedNext c m true := rfl

@[simp] theorem setStaleL_user (f : Int → Int) (t : CellId) :
    setStaleL (.user f t) = .user f t := rfl

@[simp] theorem setBufL_notify (nb : Option Int) (fn : CombFn) (d : List CellId)
    (o : CellId) (b : Option Int) : setBufL nb (.notify fn d o b) = .notify fn d o nb := rfl

@[simp] theorem ltag_user (f : Int → Int) (t : CellId) : ltag (.user f t) = .user t := rfl

@[simp] theorem ltag_onceUpdate (c : CellId) (v : Int) (s : Bool) :
    ltag (.onceUpdate c v s) = .onceUpdate c v s := rfl

@[simp] theorem ltag_notify (fn : CombFn) (d : List CellId) (o : CellId) (b : Option Int) :
    ltag (.notify fn d o b) = .notify d o b := rfl

@[simp] theorem ltag_onceCond (n : Option Int) (m : Int) (s : Bool) :
    ltag (.onceCond n m s) = .onceCond n m s := rfl

@[simp] theorem ltag_onceSchedNext (c : CellId) (m : Int) (s : Bool) :
    ltag (.onceSchedNext c m s) = .onceSchedNext c m s := rfl

theorem listUpd_length : ∀ (l : List α) (i : Nat) (f : α → α),
    (listUpd l i f).length = l.length
| [], _, _ => rfl
| _ :: l, 0, f => rfl
| a :: l, n+1, f => by simp [listUpd, listUpd_length l n f]

theorem listUpd_append_len : ∀ (P : List α) (a : α) (l : List α) (f : α → α),
    listUpd (P ++ a :: l) P.length f = P ++ f a :: l
| [], _, _, _ => rfl
| p :: P, a, l, f => by simp [listUpd, listUpd_append_len P a l f]

theorem listUpd_drop : ∀ (l : List α) (i : Nat) (f : α → α),
    (listUpd l i f).drop (i+1) = l.drop (i+1)
| [], _, _ => rfl
| _ :: _, 0, _ => rfl
| a :: l, n+1, f => by simpa [listUpd] using listUpd_drop l n f

theorem drop_cons_getD : ∀ (l : List α) (i : Nat) (a : α) (r : List α) (d : α),
    l.drop i = a :: r → l.getD i d = a := by
  intro l
  induction l with
  | nil => intro i a r d h; simp at h
  | cons x xs ih =>
    intro i a r d h
    cases i with
    | zero => simpa using congrArg (fun t => t.headD d) h
    | succ n => exact ih n a r d h

theorem drop_cons_lt : ∀ (l : List α) (i : Nat) (a : α) (r : List α),
    l.drop i = a :: r → i < l.length := by
  intro l i a r h
  by_contra hc
  rw [List.drop_eq_nil_of_le (by omega)] at h
  exact List.noConfusion h

theorem drop_cons_succ : ∀ (l : List α) (i : Nat) (a : α) (r : List α),
    l.drop i = a :: r → l.drop (i+1) = r := by
  intro l i a r h
  have := congrArg (List.drop 1) h
  simpa [List.drop_drop, Nat.add_comm] using this

theorem set_oor : ∀ (l : List α) (n : Nat) (x : α), l.length ≤ n → l.set n x = l
| [], _, _, _ => rfl
| a :: l, 0, x, h => by simp at h
| a :: l, n+1, x, h => by
  simp only [List.set]
  rw [set_oor l n x (by simpa using h)]

theorem getD_set_ne : ∀ (l : List α) (c i : Nat) (x : α) (d : α), c ≠ i →
    (l.set c x).getD i d = l.getD i d := by
  intro l c i x d h
  rcases Nat.lt_or_ge c l.length with hc | hc
  · rcases Nat.lt_or_ge i l.length with hi | hi
    · rw [List.getD_eq_getElem _ _ (by simpa using hi), List.getD_eq_getElem _ _ hi]
      simp [List.getElem_set_ne h]
    · rw [List.getD_eq_default _ _ (by simpa using hi), List.getD_eq_default _ _ hi]
  · rw [set_oor l c x hc]

theorem getD_set_self : ∀ (l : List α) (c : Nat) (x : α) (d : α), c < l.length →
    (l.set c x).getD c d = x := by
  intro l c x d h
  rw [List.getD_eq_getElem _ _ (by simpa using h)]
  simp [List.getElem_set_self]

theorem getCell_modCell_ne (st : State) (c : CellId) (f : Cell → Cell) (j : CellId)
    (h : j ≠ c) : getCell (modCell st c f) j = getCell st j := by
  simp only [getCell, modCell, setCell]
  exact getD_set_ne _ _ _ _ _ (fun e => h e.symm)

theorem getCell_modCell_self (st : State) (c : CellId) (f : Cell → Cell)
    (h : c < st.cells.length) : getCell (modCell st c f) c = f (getCell st c) := by
  simp only [getCell, modCell, setCell]
  exact getD_set_self _ _ _ _ h

theorem modCell_oor (st : State) (c : CellId) (f : Cell → Cell)
    (h : st.cells.length ≤ c) : modCell st c f = st := by
  simp only [modCell, setCell, set_oor _ _ _ h]

theorem cells_length_modCell (st : State) (c : CellId) (f : Cell → Cell) :
    (modCell st c f).cells.length = st.cells.length := by
  simp [modCell, setCell]

theorem clock_modCell (st : State) (c : CellId) (f : Cell → Cell) (j : CellId)
    (hf : ∀ x, (f x).clock = x.clock) :
    (getCell (modCell st c f) j).clock = (getCell st j).clock := by
  rcases Nat.lt_or_ge c st.cells.length with hc | hc
  · by_cases hj : j = c
    · subst hj; rw [getCell_modCell_self st j f hc, hf]
    · rw [getCell_modCell_ne st c f j hj]
  · rw [modCell_oor st c f hc]

theorem clock_setValue (st : State) (c : CellId) (v : Int) (j : CellId) :
    (getCell (setValue st c v) j).clock = (getCell st j).clock :=
  clock_modCell st c _ j (fun _ => rfl)

theorem clock_appendL (st : State) (c : CellId) (l : Listener) (j : CellId) :
    (getCell (appendL st c l) j).clock = (getCell st j).clock :=
  clock_modCell st c _ j (fun _ => rfl)

theorem clock_pruneCell (st : State) (c : CellId) (j : CellId) :
    (getCell (pruneCell st c) j).clock = (getCell st j).clock :=
  clock_modCell st c _ j (fun _ => rfl)

theorem clock_markStale (st : State) (c : CellId) (i : Nat) (j : CellId) :
    (getCell (markStale st c i) j).clock = (getCell st j).clock :=
  clock_modCell st c _ j (fun _ => rfl)

theorem clock_setBuf (st : State) (c : CellId) (i : Nat) (nb : Option Int) (j : CellId) :
    (getCell (setBuf st c i nb) j).clock = (getCell st j).clock :=
  clock_modCell st c _ j (fun _ => rfl)

theorem getCell_pushLog (st : State) (e : Ev) (j : CellId) :
    getCell (pushLog st e) j = getCell st j := rfl

theorem getCell_pushDbuf (st : State) (b : Nat) (p : Option Int × Int) (j : CellId) :
    getCell (pushDbuf st b p) j = getCell st j := rfl

theorem getCell_removeDbuf (st : State) (b : Nat) (p : Option Int × Int) (j : CellId) :
    getCell (removeDbuf st b p) j = getCell st j := rfl

/-- Nothing the interpreter ever does rewrites a cell's clock field. -/
theorem step_clock : ∀ (fuel : Nat) (st : State) (t : Task) (j : CellId),
    (getCell (step fuel st t).1 j).clock = (getCell st j).clock := by
  intro fuel
  induction fuel with
  | zero => intro st t j; rfl
  | succ n ih =>
    intro st t j
    cases t with
    | call c vo =>
      cases vo with
      | none => rfl
      | some v =>
        simp only [step]
        by_cases h : (getCell st c).clock = c
        · rw [if_pos h]; exact ih st (.update c v) j
        · rw [if_neg h]; exact clock_appendL st _ _ j
    | update c v =>
      simp only [step]
      rw [ih]
      rw [clock_pruneCell, clock_setValue, getCell_pushLog]
    | dispatch c v i =>
      simp only [step]
      by_cases h : i < (getCell st c).listeners.length
      · rw [if_pos h]
        rcases hr : step n st (.runL c i v) with ⟨st', o⟩
        have h1 : (getCell st' j).clock = (getCell st j).clock := by
          have := ih st (.runL c i v) j
          rw [hr] at this; exact this
        cases o with
        | ok => simp only []; rw [ih st' (.dispatch c v (i+1)) j, h1]
        | raised => exact h1
        | nofuel => exact h1
      · rw [if_neg h]
    | runL host i v =>
      simp only [step]
      cases hl : (getCell st host).listeners.getD i default with
      | user f tgt =>
        dsimp only
        rw [ih, getCell_pushLog]
      | onceUpdate c' v' s =>
        dsimp only
        rcases hr : step n (pushLog st (.invoke host i)) (.update c' v') with ⟨st', o⟩
        have h1 : (getCell st' j).clock = (getCell st j).clock := by
          have := ih (pushLog st (.invoke host i)) (.update c' v') j
          rw [hr] at this; rw [this, getCell_pushLog]
        cases o with
        | ok => dsimp only; rw [clock_markStale, h1]
        | raised => exact h1
        | nofuel => exact h1
      | notify fn deps out buf =>
        dsimp only
        rcases hp : (fn (deps.map fun d => (getCell (pushLog st (.invoke host i)) d).value)
            (getCell (pushLog st (.invoke host i)) out).value buf v) with ⟨r, nb⟩
        cases r with
        | error e => dsimp only; rw [clock_setBuf, getCell_pushLog]
        | ok rv =>
          dsimp only
          rw [ih, clock_setBuf, getCell_pushLog]
      | onceCond nowo mark s =>
        cases nowo with
        | none => dsimp only; rw [getCell_pushLog]
        | some nw =>
          dsimp only
          by_cases hc : nw < v
          · rw [if_pos hc, clock_markStale, getCell_pushLog, getCell_pushLog]
          · rw [if_neg hc, getCell_pushLog]
      | onceSchedNext clk mark s =>
        dsimp only
        rw [clock_markStale, clock_appendL, getCell_pushLog]
      | delayTick t res bufId =>
        dsimp only
        rw [ih, getCell_pushLog]
      | delaySrc clk bufId =>
        dsimp only
        rw [getCell_pushDbuf, getCell_pushLog]
    | delayIter t res bufId now items =>
      cases items with
      | nil => rfl
      | cons p rest =>
        rcases p with ⟨vt, x⟩
        cases vt with
        | none => rfl
        | some et =>
          simp only [step]
          by_cases h : t ≤ now - et
          · rw [if_pos h]
            rcases hr : step n st (.call res (some et)) with ⟨st', o⟩
            have h1 : (getCell st' j).clock = (getCell st j).clock := by
              have := ih st (.call res (some et)) j
              rw [hr] at this; exact this
            cases o with
            | ok =>
              simp only []
              rw [ih, getCell_removeDbuf, h1]
            | raised => exact h1
            | nofuel => exact h1
          · rw [if_neg h]
            exact ih st (.delayIter t res bufId now rest) j

/-- `combine`'s replay-and-attach loop also leaves every clock alone. -/
theorem combineLoop_clock (fn : CombFn) (allDeps : List CellId) (out : CellId)
    (fuel : Nat) : ∀ (ds : List CellId) (st : State) (buf : Option Int) (j : CellId),
    (getCell (combineLoop fn allDeps out fuel st buf ds).1 j).clock = (getCell st j).clock := by
  intro ds
  induction ds with
  | nil => intro st buf j; rfl
  | cons d rest ih =>
    intro st buf j
    simp only [combineLoop]
    rcases hv : (getCell st d).value with _ | dv
    · simp only []
      rw [ih, clock_appendL]
    · simp only []
      rcases hp : (fn (allDeps.map fun x => (getCell st x).value) (getCell st out).value buf dv)
        with ⟨r, nb⟩
      cases r with
      | error e => rfl
      | ok rv =>
        simp only []
        rcases hr : step fuel st (.call out rv) with ⟨st', o⟩
        have h1 : (getCell st' j).clock = (getCell st j).clock := by
          have := step_clock fuel st (.call out rv) j
          rw [hr] at this; exact this
        cases o with
        | ok => simp only []; rw [ih, clock_appendL, h1]
        | raised => exact h1
        | nofuel => exact h1

/-- CLAIM C9.  Calling a stream with payload `None` is a pure read: the state
(cells, queues, buffers and the log, hence also hooks and listeners) is left
untouched, the current value is returned, and the internal write path treats a
`None` payload as a no-op, so `None` can never be pushed as an event. -/
theorem c9_read_is_pure (fuel : Nat) (st : State) (c : CellId) :
    callStream fuel st c none = ((st, .ok), (getCell st c).value)
    ∧ step (fuel+1) st (.call c none) = (st, .ok) := ⟨rfl, rfl⟩

/-- Counterexample to CLAIM C3.  The dependencies of `combine` sit on two
distinct root clocks 0 and 1, so the claim demands an orphaned (clockless)
output; the code instead hands the output the first dependency's clock 0 (and
the implementation has no clockless representation at all — the output is not
even self-clocked). -/
theorem c3_clock_inference_counterexample :
    c3Out.2 = 4 ∧ (getCell c3Out.1.1 4).clock = 0
    ∧ (getCell c3Out.1.1 2).clock = 0 ∧ (getCell c3Out.1.1 3).clock = 1
    ∧ (0 : CellId) ≠ 1 ∧ (getCell c3Out.1.1 4).clock ≠ 4 := by decide

/-- CLAIM C3 as amended: the output cell of `combine` always receives the
clock of the *first* dependency, regardless of the other dependencies'
clocks; no common-clock inference and no orphaning occur. -/
theorem c3_first_dep_clock (fuel : Nat) (st : State) (fn : CombFn)
    (buf0 : Option Int) (d : CellId) (rest : List CellId) :
    (getCell (combineOp fuel st fn buf0 (d :: rest)).1.1
        (combineOp fuel st fn buf0 (d :: rest)).2).clock
      = (getCell st d).clock := by
  simp only [combineOp]
  rw [combineLoop_clock]
  simp only [newStream, getCell]
  rw [List.getD_append_right _ _ _ _ (Nat.le_refl _)]
  simp [List.headD]

/-- CLAIM C4 evaluated at the failing input (code bug).  The source cell
already holds `1`; constructing `fmap (fun x => x + 3)` over it does invoke the
combining function (the one-shot carrying `4` sits on the queue), but the
output cell still reads `None` right after construction, contrary to the
claim, the spec and the repository's own `test_combine_deps`; the stale `4`
is only delivered during the next source event, just before the fresh `5`. -/
theorem c4_replay_deferred_eval :
    c4Out.1.2 = .ok ∧ c4Out.2 = 1
    ∧ (getCell c4Out.1.1 1).value = none
    ∧ (getCell c4Out.1.1 0).listeners.map ltag = [.onceUpdate 1 4 false, .notify [0] 1 none]
    ∧ c4Next.2 = .ok
    ∧ emitsOf 1 c4Next.1.log = [4, 5]
    ∧ (getCell c4Next.1 1).value = some 5 := by decide

/-- Counterexample to CLAIM C2.  One write into the source of a diamond: the
log of the single propagation pass shows the join cell 3 receiving two
updates, and the clock's queue ends the pass holding two one-shot update
entries for cell 3 — one was appended while the other was still pending —
refuting "at most one pending one-shot update per cell per pass". -/
theorem c2_double_scheduling_counterexample :
    c2Run.2 = .ok
    ∧ c2Run.1.log =
      [.setv 0 1, .invoke 0 0, .invoke 0 1, .invoke 0 2, .setv 1 1, .invoke 1 0,
       .invoke 0 3, .setv 2 1, .invoke 2 0, .invoke 0 4, .setv 3 1, .invoke 0 5, .setv 3 2]
    ∧ ((getCell c2Run.1 0).listeners.map ltag).countP (isOnceFor 3) = 2
    ∧ emitsOf 3 c2Run.1.log = [1, 2] := by decide

/-- CLAIM C2 as amended: each deferred set-call appends exactly one one-shot
listener to the clock's queue — per *call*, not per cell per pass — so a cell
reached along two dependency paths is scheduled once per path and the diamond
join emits once per path (twice) for a single external stimulus. -/
theorem c2_single_enqueue_per_call :
    (∀ (n : Nat) (st : State) (c : CellId) (v : Int),
      (getCell st c).clock ≠ c →
      step (n+1) st (.call c (some v)) =
        (appendL st (getCell st c).clock (.onceUpdate c v false), .ok))
    ∧ emitsOf 3 c2Run.1.log = [1, 2] := by
  constructor
  · intro n st c v h
    simp [step, h]
  · decide

/-- Witness for `c2_single_enqueue_per_call`: writing `5` into the diamond's
join cell 3 (clocked by 0) appends exactly the one one-shot entry. -/
theorem c2_single_enqueue_per_call_witness :
    (getCell c2M.1.1 3).clock ≠ 3
    ∧ step 1 c2M.1.1 (.call 3 (some 5)) =
        (appendL c2M.1.1 (getCell c2M.1.1 3).clock (.onceUpdate 3 5 false), .ok) :=
  ⟨by decide, (c2_single_enqueue_per_call.1 0 c2M.1.1 3 5 (by decide))⟩

/-- Counterexample to CLAIM C5.  After a combining function raises during the
first tick, cell 2's queued one-shot is left unprocessed — but it is *not*
dropped: the second tick executes it (the log shows `setv 2 10`, the first
tick's captured value), refuting "dropped — not retried on a later tick". -/
theorem c5_retry_counterexample :
    (c5Tick1 (fun x => x) (fun x => x) 10).2 = .raised
    ∧ (getCell (c5Tick1 (fun x => x) (fun x => x) 10).1 2).value = none
    ∧ (c5Tick2 (fun x => x) (fun x => x) 10 20).2 = .ok
    ∧ Ev.setv 2 10 ∈ (c5Tick2 (fun x => x) (fun x => x) 10 20).1.log := by decide

/-- CLAIM C5 as amended: writes never fail; a raising combining function
propagates synchronously out of the triggering write call (`raised`);
listeners already processed keep their effects (cell 1 holds `fa v1`); the
remaining queued listeners of the pass are left unprocessed at that point
(cells 2 and 3 still empty, their one-shots still pending and non-stale on the
queue) — but they are not dropped: the next tick executes them, as the
second-tick log shows (`setv 2 (fb v1)` carrying the first tick's value). -/
theorem c5_error_semantics (fa fb : Int → Int) (v1 v2 : Int) :
    (c5Tick1 fa fb v1).2 = .raised
    ∧ (getCell (c5Tick1 fa fb v1).1 1).value = some (fa v1)
    ∧ (getCell (c5Tick1 fa fb v1).1 2).value = none
    ∧ (getCell (c5Tick1 fa fb v1).1 3).value = none
    ∧ (getCell (c5Tick1 fa fb v1).1 0).listeners.map ltag =
        [.user 1, .user 2, .onceUpdate 1 (fa v1) false, .onceUpdate 2 (fb v1) false]
    ∧ (c5Tick2 fa fb v1 v2).2 = .ok
    ∧ (c5Tick2 fa fb v1 v2).1.log =
        [.setv 0 v1, .invoke 0 0, .invoke 0 1, .invoke 0 2, .setv 1 (fa v1), .invoke 1 0,
         .setv 0 v2, .invoke 0 0, .invoke 0 1, .invoke 0 2, .setv 1 (fa v1), .invoke 1 0,
         .invoke 0 3, .setv 2 (fb v1), .invoke 0 4, .setv 1 (fa v2), .invoke 1 0,
         .invoke 0 5, .setv 2 (fb v2), .invoke 0 6, .setv 3 (fa v1), .invoke 0 7, .setv 3 (fa v2)] := by
  refine ⟨?_, ?_, ?_, ?_, ?_, ?_, ?_⟩ <;>
    simp [c5Tick1, c5Tick2, c5State_eq, step, getCell, setValue, appendL, pruneCell,
      markStale, setBuf, modCell, setCell, pushLog, listUpd, raiseOnce,
      isStaleL, setStaleL, setBufL, ltag]

/-- CLAIM C7 evaluated at the failing input (code bug).  `timely.delay(2, s)`
buffers the source event `5` at clock time 1; when its age reaches 2 at tick
3, the code emits `res(v_t)` — the buffered *emit time* `1` — instead of the
buffered value `5` demanded by the claim, the docstring and the type
annotation, and then discards the pair. -/
theorem c7_delay_emits_timestamp_eval :
    c7Run2.2 = .ok
    ∧ (getCell c7Run2.1 2).value = some 1
    ∧ emitsOf 2 c7Run2.1.log = [1]
    ∧ c7Run2.1.dbufs = [[]] := by decide

theorem getCell_newStream_lt (st : State) (copt : Option CellId) (i : CellId)
    (h : i < st.cells.length) : getCell (newStream st copt).1 i = getCell st i := by
  simp only [newStream, getCell]
  exact List.getD_append _ _ _ _ h

theorem getCell_newStream_self (st : State) (copt : Option CellId) :
    getCell (newStream st copt).1 (newStream st copt).2
      = ⟨none, [], copt.getD st.cells.length⟩ := by
  simp only [newStream, getCell]
  rw [List.getD_append_right _ _ _ _ (Nat.le_refl _)]
  simp

/-- CLAIM C10.  A stream's clock field is total and fixed: construction with a
`None` clock makes the stream its own clock (orphans and roots coincide);
construction never disturbs existing cells; no interpreter step, `combine`,
`delay` or `next_tick` ever rewrites any existing cell's clock; and a write to
a self-clocked stream runs the update procedure synchronously inside the call
while a write to a stream with a distinct clock only appends one one-shot
update to that clock's listener list. -/
theorem c10_clock_total_and_fixed :
    (∀ st : State,
      (getCell (newStream st none).1 (newStream st none).2).clock = (newStream st none).2)
    ∧ (∀ (st : State) (c0 : CellId),
      (getCell (newStream st (some c0)).1 (newStream st (some c0)).2).clock = c0)
    ∧ (∀ (st : State) (copt : Option CellId) (i : CellId), i < st.cells.length →
      getCell (newStream st copt).1 i = getCell st i)
    ∧ (∀ (fuel : Nat) (st : State) (t : Task) (j : CellId),
      (getCell (step fuel st t).1 j).clock = (getCell st j).clock)
    ∧ (∀ (fuel : Nat) (st : State) (fn : CombFn) (buf0 : Option Int)
        (deps : List CellId) (j : CellId), j < st.cells.length →
      (getCell (combineOp fuel st fn buf0 deps).1.1 j).clock = (getCell st j).clock)
    ∧ (∀ (st : State) (t : Int) (s : CellId) (j : CellId), j < st.cells.length →
      (getCell (delayOp st t s).1 j).clock = (getCell st j).clock)
    ∧ (∀ (st : State) (clk : CellId) (mark : Int) (j : CellId),
      (getCell (nextTickOp st clk mark) j).clock = (getCell st j).clock)
    ∧ (∀ (n : Nat) (st : State) (c : CellId) (v : Int), (getCell st c).clock = c →
      step (n+1) st (.call c (some v)) = step n st (.update c v))
    ∧ (∀ (n : Nat) (st : State) (c : CellId) (v : Int), (getCell st c).clock ≠ c →
      step (n+1) st (.call c (some v)) =
        (appendL st (getCell st c).clock (.onceUpdate c v false), .ok)) := by
  refine ⟨?_, ?_, ?_, step_clock, ?_, ?_, ?_, ?_, ?_⟩
  · intro st; rw [getCell_newStream_self]; rfl
  · intro st c0; rw [getCell_newStream_self]; rfl
  · exact getCell_newStream_lt
  · intro fuel st fn buf0 deps j hj
    simp only [combineOp]
    rw [combineLoop_clock]
    rw [getCell_newStream_lt st _ j hj]
  · intro st t s j hj
    simp only [delayOp]
    rw [clock_appendL, clock_appendL]
    have : getCell (⟨st.cells, st.dbufs ++ [[]], st.log⟩ : State) j = getCell st j := rfl
    rw [getCell_newStream_lt ⟨st.cells, st.dbufs ++ [[]], st.log⟩ _ j hj, this]
  · intro st clk mark j
    exact clock_appendL _ _ _ _
  · intro n st c v h
    simp [step, h]
  · intro n st c v h
    simp [step, h]

/-- Witness for `c10_clock_total_and_fixed` at concrete inputs: the C4
scenario state (orphan source cell 0 holding `1`), a fresh stream, a tick, a
`combine`, a `delay`, a `next_tick`, a synchronous and a deferred write. -/
theorem c10_clock_total_and_fixed_witness :
    ((getCell (newStream c4Fed.1 none).1 (newStream c4Fed.1 none).2).clock
      = (newStream c4Fed.1 none).2)
    ∧ ((getCell (newStream c4Fed.1 (some 0)).1 (newStream c4Fed.1 (some 0)).2).clock = 0)
    ∧ (0 < c4Fed.1.cells.length
        ∧ getCell (newStream c4Fed.1 (some 0)).1 0 = getCell c4Fed.1 0)
    ∧ ((getCell (step 5 c4Fed.1 (.call 0 (some 2))).1 0).clock = (getCell c4Fed.1 0).clock)
    ∧ (0 < c4Fed.1.cells.length
        ∧ (getCell (combineOp 20 c4Fed.1 (fmapFn (fun x => x + 3)) none [0]).1.1 0).clock
            = (getCell c4Fed.1 0).clock)
    ∧ (0 < c4Fed.1.cells.length
        ∧ (getCell (delayOp c4Fed.1 2 0).1 0).clock = (getCell c4Fed.1 0).clock)
    ∧ ((getCell (nextTickOp c4Fed.1 0 7) 0).clock = (getCell c4Fed.1 0).clock)
    ∧ ((getCell c4Fed.1 0).clock = 0
        ∧ step 6 c4Fed.1 (.call 0 (some 2)) = step 5 c4Fed.1 (.update 0 2))
    ∧ ((getCell c2M.1.1 3).clock ≠ 3
        ∧ step 3 c2M.1.1 (.call 3 (some 4)) =
            (appendL c2M.1.1 (getCell c2M.1.1 3).clock (.onceUpdate 3 4 false), .ok)) :=
  ⟨c10_clock_total_and_fixed.1 c4Fed.1,
   c10_clock_total_and_fixed.2.1 c4Fed.1 0,
   ⟨by decide, c10_clock_total_and_fixed.2.2.1 c4Fed.1 (some 0) 0 (by decide)⟩,
   c10_clock_total_and_fixed.2.2.2.1 5 c4Fed.1 (.call 0 (some 2)) 0,
   ⟨by decide, c10_clock_total_and_fixed.2.2.2.2.1 20 c4Fed.1
      (fmapFn (fun x => x + 3)) none [0] 0 (by decide)⟩,
   ⟨by decide, c10_clock_total_and_fixed.2.2.2.2.2.1 c4Fed.1 2 0 0 (by decide)⟩,
   c10_clock_total_and_fixed.2.2.2.2.2.2.1 c4Fed.1 0 7 0,
   ⟨by decide, c10_clock_total_and_fixed.2.2.2.2.2.2.2.1 5 c4Fed.1 0 2 (by decide)⟩,
   ⟨by decide, c10_clock_total_and_fixed.2.2.2.2.2.2.2.2 2 c2M.1.1 3 4 (by decide)⟩⟩

theorem c6State_eq : c6State = ⟨[⟨none, [.onceSchedNext 0 7 false], 0⟩], [], []⟩ := rfl

set_option maxHeartbeats 1600000 in
theorem c6After : ∀ (vs : List Int) (w : Option Int) (L : List Ev) (ls : List Listener),
    (∀ l ∈ ls, isStaleL l = true) →
    (feedTicks 10 0 ⟨[⟨w, ls, 0⟩], [], L⟩ vs).2 = .ok
    ∧ (feedTicks 10 0 ⟨[⟨w, ls, 0⟩], [], L⟩ vs).1.log
        = L ++ vs.map (fun u => Ev.setv 0 u) := by
  intro vs
  induction vs with
  | nil => intro w L ls h; exact ⟨rfl, by simp [feedTicks]⟩
  | cons v rest ih =>
    intro w L ls h
    have hf : ls.filter (fun l => !isStaleL l) = [] :=
      List.filter_eq_nil_iff.mpr (fun l hl => by simp [h l hl])
    have hstep : step 10 ⟨[⟨w, ls, 0⟩], [], L⟩ (.call 0 (some v))
        = (⟨[⟨some v, [], 0⟩], [], L ++ [.setv 0 v]⟩, .ok) := by
      simp [step, getCell, modCell, setCell, setValue, pruneCell, pushLog, hf]
    have := ih (some v) (L ++ [.setv 0 v]) [] (by intro l hl; simp at hl)
    simp only [feedTicks, hstep]
    exact ⟨this.1, by rw [this.2]; simp⟩

set_option maxHeartbeats 1600000 in
theorem c6Before : ∀ (vs : List Int) (t0 : Int) (w : Option Int) (L : List Ev) (G : List Listener),
    (∀ l ∈ G, isStaleL l = true) →
    (feedTicks 10 0 ⟨[⟨w, G ++ [.onceCond (some t0) 7 false], 0⟩], [], L⟩ vs).2 = .ok
    ∧ (feedTicks 10 0 ⟨[⟨w, G ++ [.onceCond (some t0) 7 false], 0⟩], [], L⟩ vs).1.log
        = L ++ c6SpecLog t0 vs := by
  intro vs
  induction vs with
  | nil => intro t0 w L G h; exact ⟨rfl, by simp [feedTicks, c6SpecLog]⟩
  | cons v rest ih =>
    intro t0 w L G h
    have hf : G.filter (fun l => !isStaleL l) = [] :=
      List.filter_eq_nil_iff.mpr (fun l hl => by simp [h l hl])
    by_cases hv : t0 < v
    · have hstep : step 10 ⟨[⟨w, G ++ [.onceCond (some t0) 7 false], 0⟩], [], L⟩ (.call 0 (some v))
          = (⟨[⟨some v, [.onceCond (some t0) 7 true], 0⟩], [],
              L ++ [.setv 0 v, .invoke 0 0, .fired 7]⟩, .ok) := by
        simp [step, getCell, modCell, setCell, setValue, pruneCell, pushLog, markStale,
          listUpd, hf, hv]
      have := c6After rest (some v) (L ++ [.setv 0 v, .invoke 0 0, .fired 7])
        [.onceCond (some t0) 7 true] (by intro l hl; simp at hl; simp [hl])
      simp only [feedTicks, hstep]
      refine ⟨this.1, ?_⟩
      rw [this.2, c6SpecLog, if_pos hv]
      simp
    · have hstep : step 10 ⟨[⟨w, G ++ [.onceCond (some t0) 7 false], 0⟩], [], L⟩ (.call 0 (some v))
          = (⟨[⟨some v, [.onceCond (some t0) 7 false], 0⟩], [],
              L ++ [.setv 0 v, .invoke 0 0]⟩, .ok) := by
        simp [step, getCell, modCell, setCell, setValue, pruneCell, pushLog, markStale,
          listUpd, hf, hv]
      have := ih t0 (some v) (L ++ [.setv 0 v, .invoke 0 0]) [] (by intro l hl; simp at hl)
      simp only [feedTicks, hstep]
      refine ⟨(by simpa using this.1), ?_⟩
      have h2 := this.2
      simp only [List.nil_append] at h2
      rw [h2, c6SpecLog, if_neg hv]
      simp

theorem count_fired_map_setv (us : List Int) :
    (us.map (fun u => Ev.setv 0 u)).count (.fired 7) = 0 := by
  rw [List.count_eq_zero]
  simp

theorem c6SpecLog_count : ∀ (vs : List Int) (t0 : Int),
    (c6SpecLog t0 vs).count (Ev.fired 7)
      = if vs.any (fun v => decide (t0 < v)) then 1 else 0 := by
  intro vs
  induction vs with
  | nil => intro t0; simp [c6SpecLog]
  | cons v rest ih =>
    intro t0
    by_cases hv : t0 < v
    · rw [c6SpecLog, if_pos hv]
      simp [List.count_append, List.count_cons, count_fired_map_setv, hv]
    · rw [c6SpecLog, if_neg hv]
      simp [List.count_cons, ih, hv]

set_option maxHeartbeats 1600000 in
theorem c6Pass0_eq (t0 : Int) :
    c6Pass0 t0 =
      (⟨[⟨some t0, [.onceSchedNext 0 7 true, .onceCond (some t0) 7 false], 0⟩], [],
        [.setv 0 t0, .invoke 0 0, .invoke 0 1]⟩, .ok) := by
  simp [c6Pass0, c6State_eq, step, getCell, modCell, setCell, setValue, pruneCell,
    pushLog, markStale, appendL, listUpd]

/-- CLAIM C6.  `next_tick` schedules strictly later: invoked in the middle of
the in-flight pass of tick `t0`, it captures the clock's current timestamp
`t0` and appends a one-shot guarded by strict greaterness (visible in the
queue after the pass; the guard is consulted but does not fire within that
very pass).  Over any subsequent tick sequence the scheduled function runs
exactly once, namely during the first tick whose value is strictly greater
than `t0` — and never, if no such tick comes. -/
theorem c6_next_tick_strictly_later (t0 : Int) (vs : List Int) :
    (c6Pass0 t0).2 = .ok
    ∧ (c6Pass0 t0).1.log = [.setv 0 t0, .invoke 0 0, .invoke 0 1]
    ∧ (getCell (c6Pass0 t0).1 0).listeners.map ltag
        = [.onceSchedNext 0 7 true, .onceCond (some t0) 7 false]
    ∧ (c6Rest t0 vs).2 = .ok
    ∧ (c6Rest t0 vs).1.log = [.setv 0 t0, .invoke 0 0, .invoke 0 1] ++ c6SpecLog t0 vs
    ∧ (c6Rest t0 vs).1.log.count (.fired 7)
        = (if vs.any (fun v => decide (t0 < v)) then 1 else 0) := by
  have hb := c6Before vs t0 (some t0) [.setv 0 t0, .invoke 0 0, .invoke 0 1]
    [.onceSchedNext 0 7 true] (by intro l hl; simp at hl; simp [hl])
  simp only [List.cons_append, List.nil_append] at hb
  have hrest : (c6Rest t0 vs).2 = .ok
      ∧ (c6Rest t0 vs).1.log = [.setv 0 t0, .invoke 0 0, .invoke 0 1] ++ c6SpecLog t0 vs := by
    simp only [c6Rest, c6Pass0_eq]
    exact ⟨hb.1, by rw [hb.2]; simp⟩
  refine ⟨by rw [c6Pass0_eq], by rw [c6Pass0_eq], by rw [c6Pass0_eq]; simp [getCell],
    hrest.1, hrest.2, ?_⟩
  rw [hrest.2]
  simp [List.count_append, List.count_cons, c6SpecLog_count]


theorem c8State_eq (eq : Int → Int → Bool) :
    c8State eq =
      ⟨[⟨none, [.notify (changedFn eq) [0] 1 none], 0⟩, ⟨none, [], 0⟩], [], []⟩ := rfl

theorem emitsOf_append (c : CellId) (l1 l2 : List Ev) :
    emitsOf c (l1 ++ l2) = emitsOf c l1 ++ emitsOf c l2 := by
  simp [emitsOf]

set_option maxHeartbeats 3200000 in
theorem c8Feed : ∀ (es : List Int) (eq : Int → Int → Bool) (buf v0 v1 : Option Int)
    (G : List Listener) (L : List Ev),
    (∀ l ∈ G, isStaleL l = true) →
    (feedTicks 20 0 ⟨[⟨v0, .notify (changedFn eq) [0] 1 buf :: G, 0⟩, ⟨v1, [], 0⟩], [], L⟩ es).2
      = .ok
    ∧ emitsOf 1 (feedTicks 20 0
        ⟨[⟨v0, .notify (changedFn eq) [0] 1 buf :: G, 0⟩, ⟨v1, [], 0⟩], [], L⟩ es).1.log
      = emitsOf 1 L ++ distinctSpec eq buf es := by
  intro es
  induction es with
  | nil => intro eq buf v0 v1 G L h; exact ⟨rfl, by simp [feedTicks, distinctSpec]⟩
  | cons e rest ih =>
    intro eq buf v0 v1 G L h
    have hf : G.filter (fun l => !isStaleL l) = [] :=
      List.filter_eq_nil_iff.mpr (fun l hl => by simp [h l hl])
    rcases buf with _ | l
    · have hstep : step 20 ⟨[⟨v0, .notify (changedFn eq) [0] 1 none :: G, 0⟩, ⟨v1, [], 0⟩], [], L⟩
          (.call 0 (some e))
          = (⟨[⟨some e, [.notify (changedFn eq) [0] 1 (some e), .onceUpdate 1 e true], 0⟩,
              ⟨some e, [], 0⟩], [],
              L ++ [.setv 0 e, .invoke 0 0, .invoke 0 1, .setv 1 e]⟩, .ok) := by
        simp [step, getCell, modCell, setCell, setValue, pruneCell, pushLog, markStale,
          setBuf, appendL, listUpd, changedFn, hf]
      have := ih eq (some e) (some e) (some e) [.onceUpdate 1 e true]
        (L ++ [.setv 0 e, .invoke 0 0, .invoke 0 1, .setv 1 e])
        (by intro l hl; simp at hl; simp [hl])
      simp only [feedTicks, hstep]
      refine ⟨this.1, ?_⟩
      rw [this.2, emitsOf_append]
      simp [emitsOf, distinctSpec]
    · by_cases he : eq l e
      · have hstep : step 20
            ⟨[⟨v0, .notify (changedFn eq) [0] 1 (some l) :: G, 0⟩, ⟨v1, [], 0⟩], [], L⟩
            (.call 0 (some e))
            = (⟨[⟨some e, [.notify (changedFn eq) [0] 1 (some e)], 0⟩, ⟨v1, [], 0⟩], [],
                L ++ [.setv 0 e, .invoke 0 0]⟩, .ok) := by
          simp [step, getCell, modCell, setCell, setValue, pruneCell, pushLog, markStale,
            setBuf, appendL, listUpd, changedFn, hf, he]
        have := ih eq (some e) (some e) v1 [] (L ++ [.setv 0 e, .invoke 0 0])
          (by intro l hl; simp at hl)
        simp only [feedTicks, hstep]
        refine ⟨this.1, ?_⟩
        rw [this.2, emitsOf_append]
        simp [emitsOf, distinctSpec, he]
      · have hstep : step 20
            ⟨[⟨v0, .notify (changedFn eq) [0] 1 (some l) :: G, 0⟩, ⟨v1, [], 0⟩], [], L⟩
            (.call 0 (some e))
            = (⟨[⟨some e, [.notify (changedFn eq) [0] 1 (some e), .onceUpdate 1 e true], 0⟩,
                ⟨some e, [], 0⟩], [],
                L ++ [.setv 0 e, .invoke 0 0, .invoke 0 1, .setv 1 e]⟩, .ok) := by
          simp [step, getCell, modCell, setCell, setValue, pruneCell, pushLog, markStale,
            setBuf, appendL, listUpd, changedFn, hf, he]
        have := ih eq (some e) (some e) (some e) [.onceUpdate 1 e true]
          (L ++ [.setv 0 e, .invoke 0 0, .invoke 0 1, .setv 1 e])
          (by intro l hl; simp at hl; simp [hl])
        simp only [feedTicks, hstep]
        refine ⟨this.1, ?_⟩
        rw [this.2, emitsOf_append]
        simp [emitsOf, distinctSpec, he]

/-- CLAIM C8.  Distinct-until-changed: for every equality function and every
event sequence the output emits the current event iff the equality applied to
the carried last value and the current value is false, the first event is
always emitted, and the carried last value is the last *received* event; in
particular over `12, 13, 14, 17, 18` with `eq(x, y) = (y - x <= 1)` the
emissions are exactly `12` and `17`. -/
theorem c8_distinct_until_changed :
    (∀ (eq : Int → Int → Bool) (es : List Int),
      (c8Run eq es).2 = .ok ∧ emitsOf 1 (c8Run eq es).1.log = distinctSpec eq none es)
    ∧ emitsOf 1 (c8Run nearEq [12, 13, 14, 17, 18]).1.log = [12, 17] := by
  constructor
  · intro eq es
    have := c8Feed es eq none none none [] [] (by intro l hl; simp at hl)
    refine ⟨?_, ?_⟩
    · simpa [c8Run, c8State_eq] using this.1
    · have h2 := this.2
      simp only [emitsOf, List.filterMap_nil, List.nil_append] at h2
      simpa [c8Run, c8State_eq, emitsOf] using h2
  · decide

end Frpy

namespace Frpy


theorem getCell_appendL_ne (st : State) (c : CellId) (l : Listener) (j : CellId)
    (hj : j ≠ c) : getCell (appendL st c l) j = getCell st j :=
  getCell_modCell_ne st c _ j hj

theorem getCell_appendL_self (st : State) (c : CellId) (l : Listener)
    (h : c < st.cells.length) :
    getCell (appendL st c l) c = { getCell st c with listeners := (getCell st c).listeners ++ [l] } :=
  getCell_modCell_self st c _ h

theorem cells_length_appendL (st : State) (c : CellId) (l : Listener) :
    (appendL st c l).cells.length = st.cells.length :=
  cells_length_modCell st c _

theorem getCell_setValue_ne (st : State) (c : CellId) (v : Int) (j : CellId)
    (hj : j ≠ c) : getCell (setValue st c v) j = getCell st j :=
  getCell_modCell_ne st c _ j hj

theorem getCell_setValue_self (st : State) (c : CellId) (v : Int)
    (h : c < st.cells.length) :
    getCell (setValue st c v) c = { getCell st c with value := some v } :=
  getCell_modCell_self st c _ h

theorem cells_length_setValue (st : State) (c : CellId) (v : Int) :
    (setValue st c v).cells.length = st.cells.length :=
  cells_length_modCell st c _

theorem getCell_pruneCell_ne (st : State) (c : CellId) (j : CellId)
    (hj : j ≠ c) : getCell (pruneCell st c) j = getCell st j :=
  getCell_modCell_ne st c _ j hj

theorem getCell_pruneCell_self (st : State) (c : CellId)
    (h : c < st.cells.length) :
    getCell (pruneCell st c) c
      = { getCell st c with
          listeners := (getCell st c).listeners.filter (fun l => !isStaleL l) } :=
  getCell_modCell_self st c _ h

theorem cells_length_pruneCell (st : State) (c : CellId) :
    (pruneCell st c).cells.length = st.cells.length :=
  cells_length_modCell st c _

theorem getCell_markStale_ne (st : State) (c : CellId) (i : Nat) (j : CellId)
    (hj : j ≠ c) : getCell (markStale st c i) j = getCell st j :=
  getCell_modCell_ne st c _ j hj

theorem getCell_markStale_self (st : State) (c : CellId) (i : Nat)
    (h : c < st.cells.length) :
    getCell (markStale st c i) c
      = { getCell st c with listeners := listUpd (getCell st c).listeners i setStaleL } :=
  getCell_modCell_self st c _ h

theorem cells_length_markStale (st : State) (c : CellId) (i : Nat) :
    (markStale st c i).cells.length = st.cells.length :=
  cells_length_modCell st c _

theorem cells_length_pushLog (st : State) (e : Ev) :
    (pushLog st e).cells.length = st.cells.length := rfl

theorem pushLog_appendL (st : State) (c : CellId) (o : Listener) (e : Ev) :
    pushLog (appendL st c o) e = appendL (pushLog st e) c o := rfl

theorem pushLogs_appendL (st : State) (c : CellId) (o : Listener) :
    ∀ (es : List Ev), pushLogs (appendL st c o) es = appendL (pushLogs st es) c o := by
  intro es
  induction es generalizing st with
  | nil => rfl
  | cons e rest ih => simp only [pushLogs, List.foldl_cons, pushLog_appendL]; exact ih _

theorem log_pushLogs (st : State) : ∀ (es : List Ev), (pushLogs st es).log = st.log ++ es := by
  intro es
  induction es generalizing st with
  | nil => simp [pushLogs]
  | cons e rest ih =>
    show (pushLogs (pushLog st e) rest).log = _
    rw [ih]
    simp [pushLog]

theorem log_bulkAppend0 (st : State) : ∀ (os : List Listener),
    (bulkAppend0 st os).log = st.log := by
  intro os
  induction os generalizing st with
  | nil => rfl
  | cons o rest ih =>
    show (bulkAppend0 (appendL st 0 o) rest).log = _
    rw [ih]
    rfl

theorem getCell_bulkAppend0_ne (j : CellId) (hj : j ≠ 0) (st : State) :
    ∀ (os : List Listener), getCell (bulkAppend0 st os) j = getCell st j := by
  intro os
  induction os generalizing st with
  | nil => rfl
  | cons o rest ih =>
    show getCell (bulkAppend0 (appendL st 0 o) rest) j = _
    rw [ih, getCell_appendL_ne _ _ _ _ hj]

theorem cells_length_bulkAppend0 (st : State) : ∀ (os : List Listener),
    (bulkAppend0 st os).cells.length = st.cells.length := by
  intro os
  induction os generalizing st with
  | nil => rfl
  | cons o rest ih =>
    show (bulkAppend0 (appendL st 0 o) rest).cells.length = _
    rw [ih, cells_length_appendL]

theorem listeners_bulkAppend0_zero (st : State) : ∀ (os : List Listener),
    0 < st.cells.length →
    (getCell (bulkAppend0 st os) 0).listeners = (getCell st 0).listeners ++ os := by
  intro os
  induction os generalizing st with
  | nil => intro h; simp [bulkAppend0]
  | cons o rest ih =>
    intro h
    show (getCell (bulkAppend0 (appendL st 0 o) rest) 0).listeners = _
    rw [ih _ (by rw [cells_length_appendL]; exact h)]
    rw [getCell_appendL_self _ _ _ h]
    simp

theorem value_bulkAppend0 (st : State) (j : CellId) : ∀ (os : List Listener),
    (getCell (bulkAppend0 st os) j).value = (getCell st j).value := by
  intro os
  induction os generalizing st with
  | nil => rfl
  | cons o rest ih =>
    show (getCell (bulkAppend0 (appendL st 0 o) rest) j).value = _
    rw [ih]
    rcases Nat.lt_or_ge 0 st.cells.length with h | h
    · by_cases hj : j = 0
      · subst hj; rw [getCell_appendL_self _ _ _ h]
      · rw [getCell_appendL_ne _ _ _ _ hj]
    · rw [show appendL st 0 o = st from modCell_oor _ _ _ (by omega)]

theorem oncesOf_cons (v : Int) (p : (Int → Int) × CellId) (ps : List ((Int → Int) × CellId)) :
    oncesOf v (p :: ps) = .onceUpdate p.2 (p.1 v) false :: oncesOf v ps := rfl

set_option maxHeartbeats 1600000 in
theorem c1LemA : ∀ (ps : List ((Int → Int) × CellId)) (i n : Nat) (st : State) (v : Int),
    (getCell st 1).listeners.drop i = ps.map (fun p => Listener.user p.1 p.2) →
    (∀ p ∈ ps, (getCell st p.2).clock = 0 ∧ p.2 ≠ 0) →
    ps.length + 3 ≤ n →
    step n st (.dispatch 1 v i)
      = (bulkAppend0 (pushLogs st (invokesFrom 1 i ps.length)) (oncesOf v ps), .ok) := by
  intro ps
  induction ps with
  | nil =>
    intro i n st v hdrop hcl hn
    have hle : (getCell st 1).listeners.length ≤ i := by
      by_contra hc
      have := List.drop_eq_nil_iff.mp hdrop
      omega
    obtain ⟨m, rfl⟩ : ∃ m, n = m + 1 := ⟨n - 1, by omega⟩
    simp [step, Nat.not_lt.mpr hle, invokesFrom, oncesOf, pushLogs, bulkAppend0]
  | cons p ps' ih =>
    intro i n st v hdrop hcl hn
    have hi : i < (getCell st 1).listeners.length := drop_cons_lt _ _ _ _ hdrop
    have hget : (getCell st 1).listeners.getD i default = .user p.1 p.2 :=
      drop_cons_getD _ _ _ _ _ hdrop
    have hp := hcl p (by simp)
    obtain ⟨m, rfl⟩ : ∃ m, n = m + 3 := ⟨n - 3, by omega⟩
    have hp2 : ¬ ((0 : CellId) = p.2) := fun h => hp.2 h.symm
    have hclk : (getCell (pushLog st (.invoke 1 i)) p.2).clock = 0 := hp.1
    have hrun : step (m+2) st (.runL 1 i v)
        = (appendL (pushLog st (.invoke 1 i)) 0 (.onceUpdate p.2 (p.1 v) false), .ok) := by
      simp only [step, hget, hclk, hp2, if_false, ite_false]
    have hdrop2 : (getCell (appendL (pushLog st (.invoke 1 i)) 0
          (.onceUpdate p.2 (p.1 v) false)) 1).listeners.drop (i+1)
        = ps'.map (fun p => Listener.user p.1 p.2) := by
      rw [getCell_appendL_ne _ 0 _ 1 (by decide), getCell_pushLog]
      exact drop_cons_succ _ _ _ _ hdrop
    have hcl2 : ∀ q ∈ ps', (getCell (appendL (pushLog st (.invoke 1 i)) 0
          (.onceUpdate p.2 (p.1 v) false)) q.2).clock = 0 ∧ q.2 ≠ 0 := by
      intro q hq
      have := hcl q (by simp [hq])
      rw [clock_appendL, getCell_pushLog]
      exact this
    have hrec := ih (i+1) (m+2) _ v hdrop2 hcl2 (by rw [List.length_cons] at hn; omega)
    show (if i < (getCell st 1).listeners.length then
        match step (m+2) st (.runL 1 i v) with
        | (st', .ok) => step (m+2) st' (.dispatch 1 v (i+1))
        | r => r
      else (st, .ok)) = _
    rw [if_pos hi, hrun]
    show step (m+2) (appendL (pushLog st (.invoke 1 i)) 0 (.onceUpdate p.2 (p.1 v) false))
        (.dispatch 1 v (i+1)) = _
    rw [hrec]
    rw [List.length_cons, invokesFrom, oncesOf_cons]
    show (bulkAppend0 (pushLogs (appendL (pushLog st (.invoke 1 i)) 0 _) _) _, Outcome.ok) = _
    rw [pushLogs_appendL]
    rfl


theorem getCell_oor (st : State) (c : CellId) (h : st.cells.length ≤ c) :
    getCell st c = ⟨none, [], c⟩ := by
  show st.cells.getD c _ = _
  exact List.getD_eq_default _ _ h

theorem listeners_modCell (st : State) (c : CellId) (f : Cell → Cell) (j : CellId)
    (hf : ∀ x, (f x).listeners = x.listeners) :
    (getCell (modCell st c f) j).listeners = (getCell st j).listeners := by
  rcases Nat.lt_or_ge c st.cells.length with hc | hc
  · by_cases hj : j = c
    · subst hj; rw [getCell_modCell_self st j f hc, hf]
    · rw [getCell_modCell_ne st c f j hj]
  · rw [modCell_oor st c f hc]

theorem listeners_setValue (st : State) (c : CellId) (v : Int) (j : CellId) :
    (getCell (setValue st c v) j).listeners = (getCell st j).listeners :=
  listeners_modCell st c _ j (fun _ => rfl)

theorem listeners_pruneCell_nil (st : State) (c : CellId)
    (h : (getCell st c).listeners = []) (j : CellId) :
    (getCell (pruneCell st c) j).listeners = (getCell st j).listeners := by
  rcases Nat.lt_or_ge c st.cells.length with hc | hc
  · by_cases hj : j = c
    · subst hj; rw [getCell_pruneCell_self st j hc, h]; rfl
    · rw [getCell_pruneCell_ne st c j hj]
  · have he : pruneCell st c = st := modCell_oor st c _ hc
    rw [he]

theorem listeners_markStale_ne (st : State) (c : CellId) (i : Nat) (j : CellId)
    (hj : j ≠ c) :
    (getCell (markStale st c i) j).listeners = (getCell st j).listeners := by
  rw [getCell_markStale_ne st c i j hj]

set_option maxHeartbeats 1600000 in
theorem c1LemB : ∀ (qs : List (CellId × Int)) (i n : Nat) (st : State) (v : Int),
    (getCell st 0).listeners.drop i = qs.map (fun q => Listener.onceUpdate q.1 q.2 false) →
    (∀ q ∈ qs, (getCell st q.1).listeners = [] ∧ q.1 ≠ 0 ∧ q.1 < st.cells.length) →
    qs.length + 4 ≤ n →
    step n st (.dispatch 0 v i) = (c1PhaseB st i qs, .ok) := by
  intro qs
  induction qs with
  | nil =>
    intro i n st v hdrop hq hn
    have hle : (getCell st 0).listeners.length ≤ i := by
      by_contra hc
      have := List.drop_eq_nil_iff.mp hdrop
      omega
    obtain ⟨m, rfl⟩ : ∃ m, n = m + 1 := ⟨n - 1, by omega⟩
    simp [step, Nat.not_lt.mpr hle, c1PhaseB]
  | cons q qs' ih =>
    intro i n st v hdrop hq hn
    have hi : i < (getCell st 0).listeners.length := drop_cons_lt _ _ _ _ hdrop
    have hget : (getCell st 0).listeners.getD i default = .onceUpdate q.1 q.2 false :=
      drop_cons_getD _ _ _ _ _ hdrop
    have hqq := hq q (by simp)
    have h0 : 0 < st.cells.length := by
      by_contra hc
      have := getCell_oor st 0 (by omega)
      rw [this] at hi
      simp at hi
    obtain ⟨m, rfl⟩ : ∃ m, n = m + 4 := ⟨n - 4, by omega⟩
    have hlen3 : (getCell (pruneCell (setValue (pushLog (pushLog st (.invoke 0 i))
          (.setv q.1 q.2)) q.1 q.2) q.1) q.1).listeners = [] := by
      have hl2 : (getCell (setValue (pushLog (pushLog st (.invoke 0 i))
          (.setv q.1 q.2)) q.1 q.2) q.1).listeners = [] := by
        rw [listeners_setValue]
        exact hqq.1
      rw [listeners_pruneCell_nil _ _ hl2, hl2]
    have hrun : step (m+3) st (.runL 0 i v)
        = (markStale (pruneCell (setValue (pushLog (pushLog st (.invoke 0 i))
            (.setv q.1 q.2)) q.1 q.2) q.1) 0 i, .ok) := by
      simp only [step, hget, hlen3]
      simp
    have hst4len : ∀ j : CellId, (getCell (markStale (pruneCell (setValue (pushLog (pushLog st
          (.invoke 0 i)) (.setv q.1 q.2)) q.1 q.2) q.1) 0 i) j).listeners
          = if j = 0 then listUpd (getCell st 0).listeners i setStaleL
            else (getCell (pruneCell (setValue (pushLog (pushLog st
              (.invoke 0 i)) (.setv q.1 q.2)) q.1 q.2) q.1) j).listeners := by
      intro j
      by_cases hj : j = 0
      · subst hj
        rw [if_pos rfl]
        have hlenc : (0 : CellId) < (pruneCell (setValue (pushLog (pushLog st
            (.invoke 0 i)) (.setv q.1 q.2)) q.1 q.2) q.1).cells.length := by
          rw [cells_length_pruneCell, cells_length_setValue]
          exact h0
        rw [getCell_markStale_self _ _ _ hlenc]
        have : (getCell (pruneCell (setValue (pushLog (pushLog st
            (.invoke 0 i)) (.setv q.1 q.2)) q.1 q.2) q.1) 0).listeners
            = (getCell st 0).listeners := by
          rw [getCell_pruneCell_ne _ _ _ (fun e => hqq.2.1 e.symm), listeners_setValue]
          rfl
        rw [this]
      · rw [if_neg hj, listeners_markStale_ne _ _ _ _ hj]
    have hdrop2 : (getCell (markStale (pruneCell (setValue (pushLog (pushLog st
          (.invoke 0 i)) (.setv q.1 q.2)) q.1 q.2) q.1) 0 i) 0).listeners.drop (i+1)
        = qs'.map (fun q => Listener.onceUpdate q.1 q.2 false) := by
      rw [hst4len 0, if_pos rfl, listUpd_drop]
      exact drop_cons_succ _ _ _ _ hdrop
    have hq2 : ∀ p ∈ qs', (getCell (markStale (pruneCell (setValue (pushLog (pushLog st
          (.invoke 0 i)) (.setv q.1 q.2)) q.1 q.2) q.1) 0 i) p.1).listeners = []
          ∧ p.1 ≠ 0
          ∧ p.1 < (markStale (pruneCell (setValue (pushLog (pushLog st
              (.invoke 0 i)) (.setv q.1 q.2)) q.1 q.2) q.1) 0 i).cells.length := by
      intro p hp
      have hpp := hq p (by simp [hp])
      refine ⟨?_, hpp.2.1, ?_⟩
      · rw [hst4len p.1, if_neg hpp.2.1]
        by_cases hpq : p.1 = q.1
        · rw [hpq]
          rw [listeners_pruneCell_nil _ _ (by rw [listeners_setValue]; exact hqq.1),
            listeners_setValue]
          exact hqq.1
        · rw [getCell_pruneCell_ne _ _ _ hpq, listeners_setValue]
          exact hpp.1
      · rw [cells_length_markStale, cells_length_pruneCell, cells_length_setValue]
        exact hpp.2.2
    have hrec := ih (i+1) (m+3) _ v hdrop2 hq2 (by rw [List.length_cons] at hn; omega)
    show (if i < (getCell st 0).listeners.length then
        match step (m+3) st (.runL 0 i v) with
        | (st', .ok) => step (m+3) st' (.dispatch 0 v (i+1))
        | r => r
      else (st, .ok)) = _
    rw [if_pos hi, hrun]
    show step (m+3) (markStale (pruneCell (setValue (pushLog (pushLog st
        (.invoke 0 i)) (.setv q.1 q.2)) q.1 q.2) q.1) 0 i) (.dispatch 0 v (i+1)) = _
    rw [hrec]
    rfl


theorem log_modCell (st : State) (c : CellId) (f : Cell → Cell) :
    (modCell st c f).log = st.log := rfl

theorem log_pushLog (st : State) (e : Ev) : (pushLog st e).log = st.log ++ [e] := rfl

theorem getCell_pushLogs (st : State) (j : CellId) : ∀ (es : List Ev),
    getCell (pushLogs st es) j = getCell st j := by
  intro es
  induction es generalizing st with
  | nil => rfl
  | cons e rest ih =>
    show getCell (pushLogs (pushLog st e) rest) j = _
    rw [ih, getCell_pushLog]

theorem cells_length_pushLogs (st : State) : ∀ (es : List Ev),
    (pushLogs st es).cells.length = st.cells.length := by
  intro es
  induction es generalizing st with
  | nil => rfl
  | cons e rest ih =>
    show (pushLogs (pushLog st e) rest).cells.length = _
    rw [ih]
    rfl

theorem log_c1PhaseB : ∀ (qs : List (CellId × Int)) (st : State) (i : Nat),
    (c1PhaseB st i qs).log = st.log ++ phaseBLog i qs := by
  intro qs
  induction qs with
  | nil => intro st i; simp [c1PhaseB, phaseBLog]
  | cons q rest ih =>
    intro st i
    show (c1PhaseB _ (i+1) rest).log = _
    rw [ih]
    show (markStale (pruneCell (setValue (pushLog (pushLog st (.invoke 0 i))
        (.setv q.1 q.2)) q.1 q.2) q.1) 0 i).log ++ _ = _
    rw [show (markStale (pruneCell (setValue (pushLog (pushLog st (.invoke 0 i))
        (.setv q.1 q.2)) q.1 q.2) q.1) 0 i).log
        = (st.log ++ [Ev.invoke 0 i]) ++ [Ev.setv q.1 q.2] from rfl]
    simp [phaseBLog]

theorem cells_length_c1PhaseB : ∀ (qs : List (CellId × Int)) (st : State) (i : Nat),
    (c1PhaseB st i qs).cells.length = st.cells.length := by
  intro qs
  induction qs with
  | nil => intro st i; rfl
  | cons q rest ih =>
    intro st i
    show (c1PhaseB _ (i+1) rest).cells.length = _
    rw [ih, cells_length_markStale, cells_length_pruneCell, cells_length_setValue]
    rfl

theorem listeners0_c1PhaseB : ∀ (qs : List (CellId × Int)) (st : State) (i : Nat) (P : List Listener),
    0 < st.cells.length →
    (∀ q ∈ qs, q.1 ≠ 0) →
    (getCell st 0).listeners = P ++ qs.map (fun q => Listener.onceUpdate q.1 q.2 false) →
    P.length = i →
    (getCell (c1PhaseB st i qs) 0).listeners
      = P ++ qs.map (fun q => Listener.onceUpdate q.1 q.2 true) := by
  intro qs
  induction qs with
  | nil => intro st i P h0 hne hP hlen; simpa [c1PhaseB] using hP
  | cons q rest ih =>
    intro st i P h0 hne hP hlen
    show (getCell (c1PhaseB (markStale (pruneCell (setValue (pushLog (pushLog st (.invoke 0 i))
        (.setv q.1 q.2)) q.1 q.2) q.1) 0 i) (i+1) rest) 0).listeners = _
    have hq0 : q.1 ≠ 0 := hne q (by simp)
    have hmid : (getCell (pruneCell (setValue (pushLog (pushLog st (.invoke 0 i))
        (.setv q.1 q.2)) q.1 q.2) q.1) 0).listeners = (getCell st 0).listeners := by
      rw [getCell_pruneCell_ne _ _ _ (fun e => hq0 e.symm), listeners_setValue]
      rfl
    have hlenmid : (0 : CellId) < (pruneCell (setValue (pushLog (pushLog st (.invoke 0 i))
        (.setv q.1 q.2)) q.1 q.2) q.1).cells.length := by
      rw [cells_length_pruneCell, cells_length_setValue]
      exact h0
    have hmark : (getCell (markStale (pruneCell (setValue (pushLog (pushLog st (.invoke 0 i))
        (.setv q.1 q.2)) q.1 q.2) q.1) 0 i) 0).listeners
        = (P ++ [Listener.onceUpdate q.1 q.2 true])
          ++ rest.map (fun q => Listener.onceUpdate q.1 q.2 false) := by
      rw [getCell_markStale_self _ _ _ hlenmid, hmid, hP]
      rw [← hlen, List.map_cons, listUpd_append_len]
      simp
    rw [ih _ (i+1) (P ++ [Listener.onceUpdate q.1 q.2 true])
      (by rw [cells_length_markStale]; exact hlenmid)
      (fun p hp => hne p (by simp [hp])) hmark
      (by simp [hlen])]
    simp

theorem step_call_self (n : Nat) (st : State) (c : CellId) (v : Int)
    (h : (getCell st c).clock = c) :
    step (n+1) st (.call c (some v)) = step n st (.update c v) := by
  simp [step, h]

theorem step_call_defer (n : Nat) (st : State) (c : CellId) (v : Int)
    (h : (getCell st c).clock ≠ c) :
    step (n+1) st (.call c (some v))
      = (appendL st (getCell st c).clock (.onceUpdate c v false), .ok) := by
  simp [step, h]

theorem step_update_eq (n : Nat) (st : State) (c : CellId) (v : Int) :
    step (n+1) st (.update c v)
      = step n (pruneCell (setValue (pushLog st (.setv c v)) c v) c) (.dispatch c v 0) := rfl

theorem step_dispatch_lt (n : Nat) (st : State) (c : CellId) (v : Int) (i : Nat)
    (h : i < (getCell st c).listeners.length) :
    step (n+1) st (.dispatch c v i)
      = match step n st (.runL c i v) with
        | (st', .ok) => step n st' (.dispatch c v (i+1))
        | r => r := by
  show (if i < (getCell st c).listeners.length then
      match step n st (.runL c i v) with
      | (st', .ok) => step n st' (.dispatch c v (i+1))
      | r => r
    else (st, .ok)) = _
  rw [if_pos h]

theorem step_runL_user (n : Nat) (st : State) (host : CellId) (i : Nat) (v : Int)
    (f : Int → Int) (tgt : CellId)
    (h : (getCell st host).listeners.getD i default = .user f tgt) :
    step (n+1) st (.runL host i v)
      = step n (pushLog st (.invoke host i)) (.call tgt (some (f v))) := by
  simp only [step, h]

theorem step_runL_once (n : Nat) (st : State) (host : CellId) (i : Nat) (v : Int)
    (c' : CellId) (v' : Int) (b : Bool)
    (h : (getCell st host).listeners.getD i default = .onceUpdate c' v' b) :
    step (n+1) st (.runL host i v)
      = match step n (pushLog st (.invoke host i)) (.update c' v') with
        | (st', .ok) => (markStale st' host i, .ok)
        | r => r := by
  simp only [step, h]

theorem getD_replicate (x d : α) : ∀ (N k : Nat), k < N →
    (List.replicate N x).getD k d = x := by
  intro N
  induction N with
  | zero => intro k h; omega
  | succ n ih =>
    intro k h
    cases k with
    | zero => rfl
    | succ j => exact ih j (by omega)

theorem mem_invokesFrom (c : CellId) : ∀ (n i k : Nat), k < n →
    Ev.invoke c (i + k) ∈ invokesFrom c i n := by
  intro n
  induction n with
  | zero => intro i k h; omega
  | succ m ih =>
    intro i k h
    cases k with
    | zero => simp [invokesFrom]
    | succ j =>
      rw [invokesFrom]
      refine List.mem_cons.mpr (Or.inr ?_)
      have := ih (i+1) j (by omega)
      simpa [Nat.add_assoc, Nat.add_comm 1 j] using this

theorem invokesFrom_shape (c : CellId) : ∀ (n i : Nat) (e : Ev),
    e ∈ invokesFrom c i n → ∃ j, e = Ev.invoke c j := by
  intro n
  induction n with
  | zero => intro i e h; simp [invokesFrom] at h
  | succ m ih =>
    intro i e h
    rw [invokesFrom] at h
    rcases List.mem_cons.mp h with rfl | h2
    · exact ⟨i, rfl⟩
    · exact ih (i+1) e h2

theorem mem_phaseBLog : ∀ (qs : List (CellId × Int)) (i : Nat) (q : CellId × Int),
    q ∈ qs → Ev.setv q.1 q.2 ∈ phaseBLog i qs := by
  intro qs
  induction qs with
  | nil => intro i q h; simp at h
  | cons p rest ih =>
    intro i q h
    rcases List.mem_cons.mp h with rfl | h2
    · simp [phaseBLog]
    · rw [phaseBLog]
      simp only [List.mem_cons]
      exact Or.inr (Or.inr (ih (i+1) q h2))



set_option maxHeartbeats 3200000 in
theorem c1_breadth_first_order (v : Int) (f0 : Int → Int)
    (ls : List ((Int → Int) × CellId)) (N : Nat)
    (hls : ∀ p ∈ ls, 2 ≤ p.2 ∧ p.2 < N + 2) :
    (c1Run v f0 ls N).2 = .ok
    ∧ (c1Run v f0 ls N).1.log
        = c1LogPre v f0 ls.length ++ phaseBLog 2 (c1Qs v f0 ls)
    ∧ (∀ k, k < ls.length → Ev.invoke 1 k ∈ c1LogPre v f0 ls.length)
    ∧ (∀ t x, 2 ≤ t → Ev.setv t x ∉ c1LogPre v f0 ls.length)
    ∧ (∀ p ∈ ls, Ev.setv p.2 (p.1 (f0 v)) ∈ phaseBLog 2 (c1Qs v f0 ls))
    ∧ (∀ l ∈ (getCell (c1Run v f0 ls N).1 0).listeners,
        isStaleL l = false → ∃ f t, l = Listener.user f t) := by
  have h0get : getCell (c1State f0 ls N) 0 = ⟨none, [.user f0 1], 0⟩ := rfl
  have h1get : getCell (c1State f0 ls N) 1
      = ⟨none, ls.map (fun p => .user p.1 p.2), 0⟩ := rfl
  have hlen0 : (c1State f0 ls N).cells.length = N + 2 := by simp [c1State]
  have hleaf : ∀ t, 2 ≤ t → t < N + 2 → getCell (c1State f0 ls N) t = ⟨none, [], 0⟩ := by
    intro t h2 hN
    obtain ⟨k, rfl⟩ : ∃ k, t = k + 2 := ⟨t - 2, by omega⟩
    show ((c1State f0 ls N).cells).getD (k+2) ⟨none, [], k+2⟩ = ⟨none, [], 0⟩
    simp only [c1State]
    rw [List.getD_cons_succ, List.getD_cons_succ]
    exact getD_replicate _ _ _ _ (by omega)
  -- facts about c1A
  have hA0 : getCell (c1A v f0 ls N) 0 = ⟨some v, [.user f0 1], 0⟩ := by
    rw [show c1A v f0 ls N
        = pruneCell (setValue (pushLog (c1State f0 ls N) (.setv 0 v)) 0 v) 0 from rfl]
    have hl1 : (0:Nat) < (setValue (pushLog (c1State f0 ls N) (.setv 0 v)) 0 v).cells.length := by
      rw [cells_length_setValue, cells_length_pushLog, hlen0]; omega
    have hl2 : (0:Nat) < (pushLog (c1State f0 ls N) (.setv 0 v)).cells.length := by
      rw [cells_length_pushLog, hlen0]; omega
    rw [getCell_pruneCell_self _ _ hl1]
    rw [getCell_setValue_self _ _ _ hl2]
    rw [getCell_pushLog, h0get]
    rfl
  have hA1 : getCell (c1A v f0 ls N) 1 = ⟨none, ls.map (fun p => .user p.1 p.2), 0⟩ := by
    rw [show c1A v f0 ls N
        = pruneCell (setValue (pushLog (c1State f0 ls N) (.setv 0 v)) 0 v) 0 from rfl]
    rw [getCell_pruneCell_ne _ 0 1 (by decide), getCell_setValue_ne _ 0 _ 1 (by decide),
      getCell_pushLog, h1get]
  have hAleaf : ∀ t, 2 ≤ t → t < N + 2 → getCell (c1A v f0 ls N) t = ⟨none, [], 0⟩ := by
    intro t h2 hN
    have ht0 : t ≠ 0 := by omega
    rw [show c1A v f0 ls N
        = pruneCell (setValue (pushLog (c1State f0 ls N) (.setv 0 v)) 0 v) 0 from rfl]
    rw [getCell_pruneCell_ne _ 0 t ht0, getCell_setValue_ne _ 0 _ t ht0,
      getCell_pushLog]
    exact hleaf t h2 hN
  have hAlen : (c1A v f0 ls N).cells.length = N + 2 := by
    rw [show c1A v f0 ls N
        = pruneCell (setValue (pushLog (c1State f0 ls N) (.setv 0 v)) 0 v) 0 from rfl]
    rw [cells_length_pruneCell, cells_length_setValue, cells_length_pushLog, hlen0]
  -- facts about c1B
  have hB0 : getCell (c1B v f0 ls N) 0
      = ⟨some v, [.user f0 1, .onceUpdate 1 (f0 v) false], 0⟩ := by
    rw [show c1B v f0 ls N
        = appendL (pushLog (c1A v f0 ls N) (.invoke 0 0)) 0 (.onceUpdate 1 (f0 v) false)
        from rfl]
    have hl1 : (0:Nat) < (pushLog (c1A v f0 ls N) (.invoke 0 0)).cells.length := by
      rw [cells_length_pushLog, hAlen]; omega
    rw [getCell_appendL_self _ _ _ hl1]
    rw [getCell_pushLog, hA0]
    rfl
  have hB1 : getCell (c1B v f0 ls N) 1 = ⟨none, ls.map (fun p => .user p.1 p.2), 0⟩ := by
    rw [show c1B v f0 ls N
        = appendL (pushLog (c1A v f0 ls N) (.invoke 0 0)) 0 (.onceUpdate 1 (f0 v) false)
        from rfl]
    rw [getCell_appendL_ne _ 0 _ 1 (by decide), getCell_pushLog]
    exact hA1
  have hBleaf : ∀ t, 2 ≤ t → t < N + 2 → getCell (c1B v f0 ls N) t = ⟨none, [], 0⟩ := by
    intro t h2 hN
    have ht0 : t ≠ 0 := by omega
    rw [show c1B v f0 ls N
        = appendL (pushLog (c1A v f0 ls N) (.invoke 0 0)) 0 (.onceUpdate 1 (f0 v) false)
        from rfl]
    rw [getCell_appendL_ne _ 0 _ t ht0, getCell_pushLog]
    exact hAleaf t h2 hN
  have hBlen : (c1B v f0 ls N).cells.length = N + 2 := by
    rw [show c1B v f0 ls N
        = appendL (pushLog (c1A v f0 ls N) (.invoke 0 0)) 0 (.onceUpdate 1 (f0 v) false)
        from rfl]
    rw [cells_length_appendL, cells_length_pushLog, hAlen]
  -- facts about c1C0
  have hC0unf : c1C0 v f0 ls N
      = pruneCell (setValue (pushLog (pushLog (c1B v f0 ls N) (.invoke 0 1))
          (.setv 1 (f0 v))) 1 (f0 v)) 1 := rfl
  have hC00 : getCell (c1C0 v f0 ls N) 0
      = ⟨some v, [.user f0 1, .onceUpdate 1 (f0 v) false], 0⟩ := by
    rw [hC0unf, getCell_pruneCell_ne _ 1 0 (by decide),
      getCell_setValue_ne _ 1 _ 0 (by decide), getCell_pushLog, getCell_pushLog]
    exact hB0
  have hfilterusers : (ls.map (fun p => Listener.user p.1 p.2)).filter
      (fun l => !isStaleL l) = ls.map (fun p => Listener.user p.1 p.2) := by
    rw [List.filter_eq_self]
    intro a ha
    rcases List.mem_map.mp ha with ⟨p, hp, rfl⟩
    simp
  have hC01 : getCell (c1C0 v f0 ls N) 1
      = ⟨some (f0 v), ls.map (fun p => .user p.1 p.2), 0⟩ := by
    rw [hC0unf]
    have hl1 : (1:Nat) < (setValue (pushLog (pushLog (c1B v f0 ls N) (.invoke 0 1))
        (.setv 1 (f0 v))) 1 (f0 v)).cells.length := by
      rw [cells_length_setValue, cells_length_pushLog, cells_length_pushLog, hBlen]; omega
    have hl2 : (1:Nat) < (pushLog (pushLog (c1B v f0 ls N) (.invoke 0 1))
        (.setv 1 (f0 v))).cells.length := by
      rw [cells_length_pushLog, cells_length_pushLog, hBlen]; omega
    rw [getCell_pruneCell_self _ _ hl1]
    rw [getCell_setValue_self _ _ _ hl2]
    rw [getCell_pushLog, getCell_pushLog, hB1]
    simp [hfilterusers]
  have hC0leaf : ∀ t, 2 ≤ t → t < N + 2 → getCell (c1C0 v f0 ls N) t = ⟨none, [], 0⟩ := by
    intro t h2 hN
    have ht1 : t ≠ 1 := by omega
    rw [hC0unf, getCell_pruneCell_ne _ 1 t ht1, getCell_setValue_ne _ 1 _ t ht1,
      getCell_pushLog, getCell_pushLog]
    exact hBleaf t h2 hN
  have hC0len : (c1C0 v f0 ls N).cells.length = N + 2 := by
    rw [hC0unf, cells_length_pruneCell, cells_length_setValue, cells_length_pushLog,
      cells_length_pushLog, hBlen]
  -- facts about c1D
  have hDunf : c1D v f0 ls N = markStale (c1C1 v f0 ls N) 0 1 := rfl
  have hC1unf : c1C1 v f0 ls N
      = bulkAppend0 (pushLogs (c1C0 v f0 ls N) (invokesFrom 1 0 ls.length))
          (oncesOf (f0 v) ls) := rfl
  have hC1len : (c1C1 v f0 ls N).cells.length = N + 2 := by
    rw [hC1unf, cells_length_bulkAppend0, cells_length_pushLogs, hC0len]
  have hC1l0 : (getCell (c1C1 v f0 ls N) 0).listeners
      = [.user f0 1, .onceUpdate 1 (f0 v) false] ++ oncesOf (f0 v) ls := by
    rw [hC1unf, listeners_bulkAppend0_zero _ _ (by
      rw [cells_length_pushLogs, hC0len]; omega)]
    rw [getCell_pushLogs, hC00]
  have hD0 : (getCell (c1D v f0 ls N) 0).listeners
      = [.user f0 1, .onceUpdate 1 (f0 v) true] ++ oncesOf (f0 v) ls := by
    have hl1 : (0:Nat) < (c1C1 v f0 ls N).cells.length := by rw [hC1len]; omega
    rw [hDunf, getCell_markStale_self _ _ _ hl1, hC1l0]
    rfl
  have hDleaf : ∀ t, 2 ≤ t → t < N + 2 → (getCell (c1D v f0 ls N) t).listeners = [] := by
    intro t h2 hN
    have ht0 : t ≠ 0 := by omega
    rw [hDunf, listeners_markStale_ne _ _ _ _ ht0, hC1unf,
      getCell_bulkAppend0_ne _ ht0, getCell_pushLogs, hC0leaf t h2 hN]
  have hDlen : (c1D v f0 ls N).cells.length = N + 2 := by
    rw [hDunf, cells_length_markStale, hC1len]
  have hqsmap : oncesOf (f0 v) ls
      = (c1Qs v f0 ls).map (fun q => Listener.onceUpdate q.1 q.2 false) := by
    simp [oncesOf, c1Qs, List.map_map]
  -- the chain of evaluation steps
  have e1 : step (ls.length + 12) (c1State f0 ls N) (.call 0 (some v))
      = step (ls.length + 11) (c1State f0 ls N) (.update 0 v) :=
    step_call_self (ls.length + 11) _ 0 v (by rw [h0get])
  have e2 : step (ls.length + 11) (c1State f0 ls N) (.update 0 v)
      = step (ls.length + 10) (c1A v f0 ls N) (.dispatch 0 v 0) :=
    step_update_eq (ls.length + 10) _ 0 v
  have e3 : step (ls.length + 10) (c1A v f0 ls N) (.dispatch 0 v 0)
      = match step (ls.length + 9) (c1A v f0 ls N) (.runL 0 0 v) with
        | (st', .ok) => step (ls.length + 9) st' (.dispatch 0 v 1)
        | r => r :=
    step_dispatch_lt (ls.length + 9) _ 0 v 0 (by rw [hA0]; simp)
  have hrun0 : step (ls.length + 9) (c1A v f0 ls N) (.runL 0 0 v)
      = (c1B v f0 ls N, .ok) := by
    rw [step_runL_user (ls.length + 8) _ 0 0 v f0 1 (by rw [hA0]; rfl)]
    have h := step_call_defer (ls.length + 7)
      (pushLog (c1A v f0 ls N) (.invoke 0 0)) 1 (f0 v)
      (by rw [getCell_pushLog, hA1]; simp)
    rw [show (getCell (pushLog (c1A v f0 ls N) (.invoke 0 0)) 1).clock = 0 from by
      rw [getCell_pushLog, hA1]] at h
    exact h
  have e4 : step (ls.length + 9) (c1B v f0 ls N) (.dispatch 0 v 1)
      = match step (ls.length + 8) (c1B v f0 ls N) (.runL 0 1 v) with
        | (st', .ok) => step (ls.length + 8) st' (.dispatch 0 v 2)
        | r => r :=
    step_dispatch_lt (ls.length + 8) _ 0 v 1 (by rw [hB0]; simp)
  have hlemA := c1LemA ls 0 (ls.length + 6) (c1C0 v f0 ls N) (f0 v)
    (by rw [hC01]; rfl)
    (by
      intro p hp
      constructor
      · rw [hC0leaf p.2 (hls p hp).1 (hls p hp).2]
      · intro h
        have h2 := (hls p hp).1
        rw [h] at h2
        exact absurd h2 (by decide))
    (by omega)
  have hrun1 : step (ls.length + 8) (c1B v f0 ls N) (.runL 0 1 v)
      = (c1D v f0 ls N, .ok) := by
    rw [step_runL_once (ls.length + 7) _ 0 1 v 1 (f0 v) false (by rw [hB0]; rfl)]
    have hupd : step (ls.length + 7) (pushLog (c1B v f0 ls N) (.invoke 0 1))
        (.update 1 (f0 v)) = (c1C1 v f0 ls N, .ok) := by
      rw [step_update_eq (ls.length + 6) _ 1 (f0 v)]
      exact hlemA
    rw [hupd]
    rfl
  have hlemB := c1LemB (c1Qs v f0 ls) 2 (ls.length + 8) (c1D v f0 ls N) v
    (by
      rw [hD0, hqsmap]
      rfl)
    (by
      intro q hq
      rcases List.mem_map.mp hq with ⟨p, hp, rfl⟩
      have hb : p.2 ≠ 0 := by
        intro h
        have h2 := (hls p hp).1
        rw [h] at h2
        exact absurd h2 (by decide)
      have hc : p.2 < (c1D v f0 ls N).cells.length := by
        rw [hDlen]
        exact (hls p hp).2
      exact ⟨hDleaf p.2 (hls p hp).1 (hls p hp).2, hb, hc⟩)
    (by simp [c1Qs])
  have hfull : c1Run v f0 ls N = (c1PhaseB (c1D v f0 ls N) 2 (c1Qs v f0 ls), .ok) := by
    show step (ls.length + 12) (c1State f0 ls N) (.call 0 (some v)) = _
    rw [e1, e2, e3, hrun0]
    show step (ls.length + 9) (c1B v f0 ls N) (.dispatch 0 v 1) = _
    rw [e4, hrun1]
    show step (ls.length + 8) (c1D v f0 ls N) (.dispatch 0 v 2) = _
    exact hlemB
  have hDlog : (c1D v f0 ls N).log = c1LogPre v f0 ls.length := by
    have h1 : (c1D v f0 ls N).log
        = (c1C0 v f0 ls N).log ++ invokesFrom 1 0 ls.length := by
      show (c1C1 v f0 ls N).log = _
      rw [hC1unf, log_bulkAppend0, log_pushLogs]
    rw [h1, show (c1C0 v f0 ls N).log
        = ((((([] : List Ev) ++ [Ev.setv 0 v]) ++ [Ev.invoke 0 0]) ++ [Ev.invoke 0 1])
            ++ [Ev.setv 1 (f0 v)]) from rfl]
    simp [c1LogPre]
  refine ⟨?_, ?_, ?_, ?_, ?_, ?_⟩
  · rw [hfull]
  · rw [hfull]
    show (c1PhaseB (c1D v f0 ls N) 2 (c1Qs v f0 ls)).log = _
    rw [log_c1PhaseB, hDlog]
  · intro k hk
    rw [c1LogPre]
    refine List.mem_append.mpr (Or.inr ?_)
    have := mem_invokesFrom 1 ls.length 0 k hk
    simpa using this
  · intro t x ht hmem
    rw [c1LogPre] at hmem
    rcases List.mem_append.mp hmem with h4 | hinv
    · rcases List.mem_cons.mp h4 with h | h4
      · injection h with h1 h2
        rw [h1] at ht
        exact absurd ht (by decide)
      rcases List.mem_cons.mp h4 with h | h4
      · exact Ev.noConfusion h
      rcases List.mem_cons.mp h4 with h | h4
      · exact Ev.noConfusion h
      rcases List.mem_cons.mp h4 with h | h4
      · injection h with h1 h2
        rw [h1] at ht
        exact absurd ht (by decide)
      · simp at h4
    · rcases invokesFrom_shape 1 ls.length 0 _ hinv with ⟨j, hj⟩
      exact Ev.noConfusion hj
  · intro p hp
    have : (p.2, p.1 (f0 v)) ∈ c1Qs v f0 ls := List.mem_map.mpr ⟨p, hp, rfl⟩
    exact mem_phaseBLog _ 2 _ this
  · intro l hl hstale
    rw [hfull] at hl
    have hfin : (getCell (c1PhaseB (c1D v f0 ls N) 2 (c1Qs v f0 ls)) 0).listeners
        = [Listener.user f0 1, Listener.onceUpdate 1 (f0 v) true]
          ++ (c1Qs v f0 ls).map (fun q => Listener.onceUpdate q.1 q.2 true) := by
      refine listeners0_c1PhaseB (c1Qs v f0 ls) (c1D v f0 ls N) 2
        [Listener.user f0 1, Listener.onceUpdate 1 (f0 v) true]
        (by rw [hDlen]; show (0:Nat) < N + 2; omega) ?_ ?_ rfl
      · intro q hq
        rcases List.mem_map.mp hq with ⟨p, hp, rfl⟩
        intro h
        have h' : p.2 = 0 := h
        have h2 := (hls p hp).1
        rw [h'] at h2
        exact absurd h2 (by decide)
      · rw [hD0, hqsmap]
    rw [hfin] at hl
    rcases List.mem_append.mp hl with h2 | hmap
    · simp only [List.mem_cons, List.mem_singleton] at h2
      rcases h2 with rfl | rfl | h
      · exact ⟨f0, 1, rfl⟩
      · simp at hstale
      · simp at h
    · rcases List.mem_map.mp hmap with ⟨q, hq, rfl⟩
      simp at hstale



/-- Witness for `c1_breadth_first_order` at the doctest configuration: two
distance-2 cells, listeners `x + 10` into cell 2 and `x` into cell 3. -/
theorem c1_breadth_first_order_witness :
    (∀ p ∈ c1WitLs, 2 ≤ p.2 ∧ p.2 < 2 + 2)
    ∧ ((c1Run 1 c1WitF c1WitLs 2).2 = .ok
      ∧ (c1Run 1 c1WitF c1WitLs 2).1.log
          = c1LogPre 1 c1WitF c1WitLs.length ++ phaseBLog 2 (c1Qs 1 c1WitF c1WitLs)
      ∧ (∀ k, k < c1WitLs.length → Ev.invoke 1 k ∈ c1LogPre 1 c1WitF c1WitLs.length)
      ∧ (∀ t x, 2 ≤ t → Ev.setv t x ∉ c1LogPre 1 c1WitF c1WitLs.length)
      ∧ (∀ p ∈ c1WitLs, Ev.setv p.2 (p.1 (c1WitF 1)) ∈ phaseBLog 2 (c1Qs 1 c1WitF c1WitLs))
      ∧ (∀ l ∈ (getCell (c1Run 1 c1WitF c1WitLs 2).1 0).listeners,
          isStaleL l = false → ∃ f t, l = Listener.user f t)) := by
  have hls : ∀ p ∈ c1WitLs, 2 ≤ p.2 ∧ p.2 < 2 + 2 := by
    intro p hp
    rcases List.mem_cons.mp hp with rfl | hp2
    · exact ⟨by decide, by decide⟩
    rcases List.mem_cons.mp hp2 with rfl | hp3
    · exact ⟨by decide, by decide⟩
    · simp at hp3
  exact ⟨hls, c1_breadth_first_order 1 c1WitF c1WitLs 2 hls⟩

end Frpy
